import Mathlib

/-!
# Verification of the `typechk` pickling subsystem (`src/Pickle.ts`, `src/TypeChk.ts`)

This file gives a shallow embedding of the repository's pickling core:

* `JSVal` models the runtime values the encoder can meet (JS primitives,
  arrays, plain string-keyed objects, `Map`, `Set`, `RegExp`, `Date`,
  `BigInt`, symbols, and objects carrying the `FreikTypeTag` marker).
* `JSTree` models the parse tree of JSON text ("tree-text"): what
  `JSON.stringify` produces and `JSON.parse` consumes.  Text equality of
  pickled output is tree equality plus the injective printer `printTree`.
* The per-node transforms `getPickler`, `replacer` (encode) and `reviver`
  (decode) are translated line by line from `src/Pickle.ts`, as are the six
  built-in codecs and the registries.
* The external tree serializer (`JSON.stringify` / `JSON.parse` with
  callbacks) is modelled from its documented ECMAScript behaviour:
  `toJSON` runs before the replacer, the replacer's replacement object is
  recursed into, `undefined`/function/symbol results are dropped (object
  fields) or become `null` (array elements), and revival is bottom-up.
  Stringification carries an explicit recursion budget (`fuel`), because a
  registry extended with arbitrary user encoders need not terminate; the
  public `Pickle` runs with a budget provably sufficient for the built-in
  registry.
* Host primitives that are not repository code are modelled abstractly but
  with their control behaviour intact: `Date` string formatting/parsing is
  an injective timestamp rendering whose parse *fails without throwing*
  (an unparseable string yields an Invalid Date, i.e. a NaN timestamp),
  `BigInt(string)` throws on bad input (caught by the repository code),
  and `new RegExp(source, flags)` throws on invalid flag characters.
-/

/-- A JavaScript symbol: either a global registry symbol `Symbol.for k`
(whose `Symbol.keyFor` is `some k`) or a locally created symbol with no
registrable key, distinguished by an identity tag. -/
inductive JSym where
  | forKey (k : String)
  | unkeyed (id : Nat)
  deriving DecidableEq, Repr

/-- Model of `Symbol.keyFor`. -/
def JSym.keyFor : JSym → Option String
  | .forKey k => some k
  | .unkeyed _ => none

/-- A JavaScript runtime value, as far as the pickling subsystem can
distinguish values.  `vtagged mk tj base` is the value `base` carrying an
extra `[FreikTypeTag]: mk` property and, when `tj = some r`, an own
`toJSON` method returning `r`.  `vdate none` is an Invalid Date (NaN
timestamp); `vdate (some t)` has timestamp `t`.  Numbers are modelled by
the integer subset (no claim depends on float behaviour). -/
inductive JSVal where
  | vstr (s : String)
  | vnum (n : Int)
  | vbool (b : Bool)
  | vnull
  | vundef
  | vfunc
  | vsym (s : JSym)
  | vbigint (n : Int)
  | vregex (source : String) (flags : String)
  | vdate (ts : Option Int)
  | varr (elems : List JSVal)
  | vobj (fields : List (String × JSVal))
  | vmap (entries : List (JSVal × JSVal))
  | vset (elems : List JSVal)
  | vtagged (mk : JSym) (tj : Option JSVal) (base : JSVal)

/-- A JSON parse tree: the serializer-safe subset (string, number, boolean,
null, ordered list, string-keyed mapping). -/
inductive JSTree where
  | str (s : String)
  | num (n : Int)
  | bool (b : Bool)
  | null
  | arr (elems : List JSTree)
  | obj (fields : List (String × JSTree))

/-! ## Decimal numerals (host `toString` / numeric parsing) -/

/-- The decimal digit character for `d` (used with `d < 10`; the
modulus keeps the code point in the digit range). -/
def digitChar (d : Nat) : Char :=
  Char.ofNat (48 + d % 10)

/-- The value of a decimal digit character, `none` on non-digits. -/
def digitVal (c : Char) : Option Nat :=
  if 48 ≤ c.toNat && c.toNat ≤ 57 then some (c.toNat - 48) else none

/-- Little-endian decimal digits, with a structural recursion budget
(`n ≤ fuel` always holds at the call sites). -/
def natDigitsGo : Nat → Nat → List Nat
  | 0, _ => []
  | fuel + 1, n => if n = 0 then [] else (n % 10) :: natDigitsGo fuel (n / 10)

/-- Little-endian decimal digits of `n` (empty for 0). -/
def natDigitsLE (n : Nat) : List Nat :=
  natDigitsGo n n

/-- Decimal rendering of a natural number. -/
def natToDec (n : Nat) : String :=
  match n with
  | 0 => "0"
  | _ => String.mk (((natDigitsLE n).map digitChar).reverse)

/-- Fold decimal digit characters left to right onto `acc`; `none` on the
first non-digit. -/
def parseDigitsAux (acc : Nat) : List Char → Option Nat
  | [] => some acc
  | c :: cs =>
    match digitVal c with
    | some d => parseDigitsAux (acc * 10 + d) cs
    | none => none

/-- Parse a nonempty all-digit character list as a natural number. -/
def decToNat? : List Char → Option Nat
  | [] => none
  | l => parseDigitsAux 0 l

/-- Decimal rendering of an integer (host `toString` on numbers/bigints). -/
def intToDec (i : Int) : String :=
  if i < 0 then "-" ++ natToDec i.natAbs else natToDec i.natAbs

/-- Parse an optional leading minus sign followed by decimal digits. -/
def decToIntList? : List Char → Option Int
  | [] => none
  | c :: cs =>
    if c = '-' then (decToNat? cs).map (fun n => -(n : Int))
    else (decToNat? (c :: cs)).map (fun n => (n : Int))

/-- Parse an optional sign followed by decimal digits. -/
def decToInt? (s : String) : Option Int :=
  decToIntList? s.data

/-! ## Predicate library (`src/TypeChk.ts`)

Tagged values (`vtagged`) are object-like by construction (JavaScript
cannot attach properties to primitives), so the `instanceof`-style checks
see through the extra marker property, while the `typeof`-style primitive
checks reject them. -/

/-- `TypeChk.isString` (`typeof obj === 'string'`). -/
def isStringV : JSVal → Bool
  | .vstr _ => true
  | _ => false

/-- `TypeChk.isSymbol` (`typeof obj === 'symbol'`). -/
def isSymbolV : JSVal → Bool
  | .vsym _ => true
  | _ => false

/-- `TypeChk.isBigInt` (`typeof obj === 'bigint'`). -/
def isBigIntV : JSVal → Bool
  | .vbigint _ => true
  | _ => false

/-- `TypeChk.isMap` (`obj instanceof Map`); a Map carrying extra
properties is still a Map. -/
def isMapV : JSVal → Bool
  | .vmap _ => true
  | .vtagged _ _ b => isMapV b
  | _ => false

/-- `TypeChk.isSet` (`obj instanceof Set`). -/
def isSetV : JSVal → Bool
  | .vset _ => true
  | .vtagged _ _ b => isSetV b
  | _ => false

/-- `TypeChk.isRegex` (`obj instanceof RegExp`). -/
def isRegexV : JSVal → Bool
  | .vregex _ _ => true
  | .vtagged _ _ b => isRegexV b
  | _ => false

/-- `TypeChk.isDate` (`obj instanceof Date`). -/
def isDateV : JSVal → Bool
  | .vdate _ => true
  | .vtagged _ _ b => isDateV b
  | _ => false

/-- `TypeChk.isArray` (`Array.isArray`). -/
def isArrayV : JSVal → Bool
  | .varr _ => true
  | .vtagged _ _ b => isArrayV b
  | _ => false

/-- `TypeChk.is2Tuple`: an array of length 2. -/
def is2TupleV : JSVal → Bool
  | .varr l => l.length == 2
  | .vtagged _ _ b => is2TupleV b
  | _ => false

/-- Own string-keyed property read, `obj[key]`; symbol-keyed properties
(the marker) and prototype members are not string-keyed fields. -/
def fieldGet : JSVal → String → Option JSVal
  | .vobj fs, k => (fs.find? (fun p => p.1 == k)).map (·.2)
  | .vtagged _ _ b, k => fieldGet b k
  | _, _ => none

/-- `TypeChk.hasStrField obj key`. -/
def hasStrFieldV (v : JSVal) (k : String) : Bool :=
  match fieldGet v k with
  | some (.vstr _) => true
  | _ => false

/-- `hasFieldType(obj, FreikTypeTag, isSymbol)`: the marker carried by the
value, if any.  Only `vtagged` values carry the symbol-keyed
`FreikTypeTag` property, and its value is always a symbol. -/
def markerOf : JSVal → Option JSym
  | .vtagged mk _ _ => some mk
  | _ => none

/-- `hasFieldType(obj, 'toJSON', isFunction)`; the `in`-based check also
sees inherited members, so plain Dates (with `Date.prototype.toJSON`)
qualify. -/
def hasToJSONMethodV : JSVal → Bool
  | .vtagged _ (some _) _ => true
  | .vtagged _ none b => hasToJSONMethodV b
  | .vdate _ => true
  | _ => false

/-- The result of calling `val.toJSON()` on a value that has one:
an own method returns its stored result; a Date renders its timestamp
(`null` for an Invalid Date). -/
def toJSONResultV : JSVal → Option JSVal
  | .vtagged _ (some r) _ => some r
  | .vtagged _ none b => toJSONResultV b
  | .vdate (some t) => some (.vstr (intToDec t))
  | .vdate none => some .vnull
  | _ => none

/-- `TypeChk.isIterable` (`Symbol.iterator in obj`): arrays, Maps and Sets
are iterable objects; string primitives are not objects. -/
def isIterableV : JSVal → Bool
  | .varr _ | .vmap _ | .vset _ => true
  | .vtagged _ _ b => isIterableV b
  | _ => false

/-- `[...obj]` for an iterable: Map iteration yields `[k, v]` pair
arrays. -/
def spreadV : JSVal → List JSVal
  | .varr xs => xs
  | .vset xs => xs
  | .vmap es => es.map (fun p => .varr [p.1, p.2])
  | .vtagged _ _ b => spreadV b
  | _ => []

mutual
/-- `TypeChk.isSimpleObject`.  Maps, Sets, Dates and RegExps have no own
enumerable properties, so the object branch accepts them vacuously;
symbols, bigints, `undefined` and functions are rejected (`typeof` is not
`'object'`); a tagged value is rejected because its symbol-keyed marker
property holds a symbol, which is not a simple object. -/
def isSimpleObjectV : JSVal → Bool
  | .vnull => true
  | .vstr _ => true
  | .vnum _ => true
  | .vbool _ => true
  | .varr xs => isSimpleList xs
  | .vobj fs => isSimpleFields fs
  | .vmap _ => true
  | .vset _ => true
  | .vdate _ => true
  | .vregex _ _ => true
  | _ => false

/-- All list elements simple. -/
def isSimpleList : List JSVal → Bool
  | [] => true
  | x :: xs => isSimpleObjectV x && isSimpleList xs

/-- All field values simple (keys are strings by construction). -/
def isSimpleFields : List (String × JSVal) → Bool
  | [] => true
  | (_, x) :: xs => isSimpleObjectV x && isSimpleFields xs
end

/-! ## Envelope and registries (`src/Pickle.ts`) -/

/-- Error outcomes of the encode pass. -/
inductive PErr where
  | outOfFuel
  | noSymbolKey
  | typeErr
  deriving DecidableEq, Repr

/-- Error outcomes of the decode pass: `new RegExp(source, flags)` throws
a SyntaxError on invalid flags (the built-in Regex decoder does not catch
it). -/
inductive RErr where
  | regexFlagsErr
  deriving DecidableEq, Repr

/-- An encode handler (`ToFlat<unknown>`); `SymbolPickle` can throw. -/
abbrev PEnc := JSVal → Except PErr JSVal

/-- A decode handler (`FromFlat<unknown>`); the Regex one can throw. -/
abbrev FromFlatM := JSVal → Except RErr (Option JSVal)

/-- A registry: association list keyed by symbol (`Map<symbol, _>`). -/
abbrev EncReg := List (JSym × PEnc)
abbrev DecReg := List (JSym × FromFlatM)

/-- `Map.get` on a registry. -/
def lookupTag {α : Type} (reg : List (JSym × α)) (s : JSym) : Option α :=
  (reg.find? (fun p => p.1 == s)).map (·.2)

/-- `Map.set` on a registry: overwrite an existing key or append. -/
def setHandler {α : Type} (reg : List (JSym × α)) (s : JSym) (f : α) :
    List (JSym × α) :=
  if (reg.find? (fun p => p.1 == s)).isSome
  then reg.map (fun p => if p.1 == s then (s, f) else p)
  else reg ++ [(s, f)]

def SetTag : JSym := .forKey "freik.Set"
def MapTag : JSym := .forKey "freik.Map"
def SymbolTag : JSym := .forKey "freik.Symbol"
def RegexTag : JSym := .forKey "freik.RegExp"
def DateTag : JSym := .forKey "freik.Date"
def BigIntTag : JSym := .forKey "freik.BigInt"

/-- `MakeFlat`: the envelope record. -/
def MakeFlat (name : String) (data : JSVal) : JSVal :=
  .vobj [("@dataType", .vstr name), ("@dataValue", data)]

/-- `isFlattened`: `hasStrField(obj, '@dataType') &&
hasFieldType(obj, '@dataValue', isSimpleObject)`. -/
def isFlattenedV (obj : JSVal) : Bool :=
  hasStrFieldV obj "@dataType" &&
    (match fieldGet obj "@dataValue" with
     | some p => isSimpleObjectV p
     | none => false)

/-- `GetFlat`: project the envelope fields (callers guard with
`isFlattened`). -/
def GetFlatV (val : JSVal) : String × JSVal :=
  (match fieldGet val "@dataType" with
   | some (.vstr s) => s
   | _ => "",
   (fieldGet val "@dataValue").getD .vnull)

/-! ## Built-in codecs -/

/-- Map entries, seen through extra properties. -/
def asMapEntries : JSVal → Option (List (JSVal × JSVal))
  | .vmap es => some es
  | .vtagged _ _ b => asMapEntries b
  | _ => none

/-- Set elements, seen through extra properties. -/
def asSetElems : JSVal → Option (List JSVal)
  | .vset xs => some xs
  | .vtagged _ _ b => asSetElems b
  | _ => none

/-- RegExp `source`/`flags`, seen through extra properties. -/
def asRegexParts : JSVal → Option (String × String)
  | .vregex s f => some (s, f)
  | .vtagged _ _ b => asRegexParts b
  | _ => none

/-- Date timestamp (`none` = Invalid Date), seen through extra
properties. -/
def asDateTs : JSVal → Option (Option Int)
  | .vdate ts => some ts
  | .vtagged _ _ b => asDateTs b
  | _ => none

/-- `MapPickle`: `[...val.entries()]`; on a non-Map the host throws
(`val.entries` is not callable). -/
def MapPickle : PEnc := fun val =>
  match asMapEntries val with
  | some es => .ok (.varr (es.map (fun p => .varr [p.1, p.2])))
  | none => .error .typeErr

/-- `SetPickle`: `[...val]`. -/
def SetPickle : PEnc := fun val =>
  match asSetElems val with
  | some xs => .ok (.varr xs)
  | none => .error .typeErr

/-- `SymbolPickle`: `Symbol.keyFor(val)`, throwing
`'Unable to get a key for a symbol for pickling'` when there is no key;
`Symbol.keyFor` on a non-symbol throws a TypeError. -/
def SymbolPickle : PEnc := fun val =>
  match val with
  | .vsym s =>
    match s.keyFor with
    | some theKey => .ok (.vstr theKey)
    | none => .error .noSymbolKey
  | _ => .error .typeErr

/-- `RegexPickle`: `{ source: val.source, flags: val.flags }`; property
reads on a non-RegExp yield `undefined` rather than throwing. -/
def RegexPickle : PEnc := fun val =>
  match asRegexParts val with
  | some (s, f) => .ok (.vobj [("source", .vstr s), ("flags", .vstr f)])
  | none => .ok (.vobj [("source", .vundef), ("flags", .vundef)])

/-- `DatePickle`: `val.toJSON()` — the timestamp rendering for a valid
Date, `null` for an Invalid Date, TypeError when `toJSON` is absent. -/
def DatePickle : PEnc := fun val =>
  match asDateTs val with
  | some (some t) => .ok (.vstr (intToDec t))
  | some none => .ok .vnull
  | none => .error .typeErr

/-- `BigIntPickle`: `val.toString()`; every value has some `toString`,
modelled coarsely for non-bigints (unreachable from the claims). -/
def BigIntPickle : PEnc := fun val =>
  match val with
  | .vbigint n => .ok (.vstr (intToDec n))
  | _ => .ok (.vstr "[object Object]")

/-- `MapUnpickle`: `isArrayOf(val, is2Tuple) ? new Map(val) : undefined`.
`new Map` reads entry `[0]`/`[1]` of each pair (key de-duplication is not
modelled; a real Map's entry list never carries duplicate keys). -/
def pairOfTuple : JSVal → JSVal × JSVal
  | .varr (a :: b :: _) => (a, b)
  | _ => (.vundef, .vundef)

def MapUnpickle : FromFlatM := fun val =>
  match val with
  | .varr xs =>
    if xs.all is2TupleV then .ok (some (.vmap (xs.map pairOfTuple))) else .ok none
  | _ => .ok none

/-- `SetUnpickle`: `isArray(val) ? new Set(val) : undefined`. -/
def SetUnpickle : FromFlatM := fun val =>
  match val with
  | .varr xs => .ok (some (.vset xs))
  | _ => .ok none

/-- `SymbolUnpickle`: `isString(val) ? Symbol.for(val) : undefined`. -/
def SymbolUnpickle : FromFlatM := fun val =>
  match val with
  | .vstr s => .ok (some (.vsym (.forKey s)))
  | _ => .ok none

/-- Valid RegExp flag strings: flag characters from `dgimsuvy`, no
duplicates, and `u`/`v` mutually exclusive; `new RegExp` throws a
SyntaxError otherwise. -/
def validFlags (f : String) : Bool :=
  f.data.all (fun c => ['d', 'g', 'i', 'm', 's', 'u', 'v', 'y'].contains c)
    && decide f.data.Nodup
    && !(f.data.contains 'u' && f.data.contains 'v')

/-- `RegexUnpickle`: on `{source: string, flags: string}` calls
`new RegExp(source, flags)` — with no try/catch, so invalid flags
propagate the host's SyntaxError; any other shape falls through to
`undefined`. -/
def RegexUnpickle : FromFlatM := fun val =>
  match fieldGet val "source", fieldGet val "flags" with
  | some (.vstr s), some (.vstr f) =>
    if validFlags f then .ok (some (.vregex s f)) else .error .regexFlagsErr
  | _, _ => .ok none

/-- `DateUnpickle`: `isString(val) ? new Date(val) : undefined` inside a
try/catch.  `new Date(string)` never throws: an unparseable string yields
an Invalid Date (NaN timestamp), so the catch is dead code. -/
def DateUnpickle : FromFlatM := fun val =>
  match val with
  | .vstr s => .ok (some (.vdate (decToInt? s)))
  | _ => .ok none

/-- `BigIntUnpickle`: `isString(val) ? BigInt(val) : undefined` inside a
try/catch; `BigInt(string)` throws on a malformed numeral and the catch
converts that to `undefined`. -/
def BigIntUnpickle : FromFlatM := fun val =>
  match val with
  | .vstr s =>
    match decToInt? s with
    | some n => .ok (some (.vbigint n))
    | none => .ok none
  | _ => .ok none

/-- `builtInPickleTypes`: the ordered predicate/tag table. -/
def builtInPickleTypes : List ((JSVal → Bool) × JSym) :=
  [(isMapV, MapTag), (isSetV, SetTag), (isSymbolV, SymbolTag),
   (isRegexV, RegexTag), (isDateV, DateTag), (isBigIntV, BigIntTag)]

/-- `thePicklers`: the encode registry as seeded at module load. -/
def thePicklers : EncReg :=
  [(MapTag, MapPickle), (SetTag, SetPickle), (SymbolTag, SymbolPickle),
   (RegexTag, RegexPickle), (DateTag, DatePickle), (BigIntTag, BigIntPickle)]

/-- `theUnpicklers`: the decode registry as seeded at module load. -/
def theUnpicklers : DecReg :=
  [(MapTag, MapUnpickle), (SetTag, SetUnpickle), (SymbolTag, SymbolUnpickle),
   (RegexTag, RegexUnpickle), (DateTag, DateUnpickle), (BigIntTag, BigIntUnpickle)]

/-! ## Encoder dispatch and per-node replace (`src/Pickle.ts`) -/

/-- The fallback closure `getPickler` builds when a marker is present but
unregistered and the value exposes `toJSON`:
`(val) => hasFieldType(val,'toJSON',isFunction) ? val.toJSON() : 'ERROR'`. -/
def toJSONClosure : PEnc := fun val =>
  match toJSONResultV val with
  | some r => .ok r
  | none => .ok (.vstr "ERROR")

/-- The source's built-in scan: `for (const [checker, symb] of
builtInPickleTypes) if (checker(obj)) { const p = getPickleHandler(symb);
if (p) return [symb, p]; }` — a predicate match without a registered
handler lets the loop continue. -/
def builtinScan (reg : EncReg) (obj : JSVal) :
    List ((JSVal → Bool) × JSym) → Option (JSym × PEnc)
  | [] => none
  | (checker, symb) :: rest =>
    if checker obj then
      match lookupTag reg symb with
      | some p => some (symb, p)
      | none => builtinScan reg obj rest
    else builtinScan reg obj rest

/-- `getPickler` from the source: marker with a registered handler wins;
otherwise a marker with a `toJSON` method yields the fallback closure
tagged by the marker; otherwise scan the built-in table in order. -/
def getPickler (reg : EncReg) (obj : JSVal) : Option (JSym × PEnc) :=
  match markerOf obj with
  | some s =>
    match lookupTag reg s with
    | some p => some (s, p)
    | none =>
      if hasToJSONMethodV obj then some (s, toJSONClosure)
      else builtinScan reg obj builtInPickleTypes
  | none => builtinScan reg obj builtInPickleTypes

/-- The serializer's own `toJSON` pre-step: the value handed to the
replacer is `value.toJSON()` when the value has one, the value itself
otherwise. -/
def applyToJSON (v : JSVal) : JSVal :=
  match toJSONResultV v with
  | some r => r
  | none => v

/-- The source `replacer`, per node: `orig` is `this[key]` (the
pre-`toJSON` original) and `value` is the serializer-supplied value.  A
pickler whose tag has a falsy `Symbol.keyFor` — no key at all, or the
empty-string key — silently returns `value`; otherwise the value is
replaced by the envelope; an unmatched iterable is materialized by
spreading; anything else passes through. -/
def replacerStep (reg : EncReg) (orig value : JSVal) : Except PErr JSVal :=
  match getPickler reg orig with
  | some (sym, toFlat) =>
    match sym.keyFor with
    | none => .ok value
    | some keyFor =>
      if keyFor = "" then .ok value
      else do
        let payload ← toFlat orig
        .ok (MakeFlat keyFor payload)
  | none =>
    if isIterableV orig then .ok (.varr (spreadV orig))
    else .ok value

/-! ## The tree serializer (`JSON.stringify(input, replacer)`) -/

/-- Serialize the elements of an array replacement: each element gets the
full per-property treatment `rec`; a dropped element (`undefined`,
function, symbol) becomes `null`. -/
def serializeElems (rec : JSVal → Except PErr (Option JSTree)) :
    List JSVal → Except PErr (List JSTree)
  | [] => .ok []
  | x :: xs => do
    let t ← rec x
    let ts ← serializeElems rec xs
    .ok ((t.getD .null) :: ts)

/-- Serialize the fields of an object replacement: a dropped field value
makes the field disappear. -/
def serializeFields (rec : JSVal → Except PErr (Option JSTree)) :
    List (String × JSVal) → Except PErr (List (String × JSTree))
  | [] => .ok []
  | (k, x) :: xs => do
    let t ← rec x
    let ts ← serializeFields rec xs
    match t with
    | some tt => .ok ((k, tt) :: ts)
    | none => .ok ts

/-- Serialize the replacer's *replacement* value as JSON.  Primitives map
to leaves; `undefined`, functions and symbol primitives produce no
output; a raw BigInt makes `JSON.stringify` throw; arrays and plain
objects recurse into their members with the full treatment `rec`; Maps,
Sets, Dates and RegExps have no own enumerable properties and serialize
as `{}`; a tagged value serializes by its base's own enumerable
string-keyed properties (the symbol-keyed marker is skipped). -/
def serializeInto (rec : JSVal → Except PErr (Option JSTree)) :
    JSVal → Except PErr (Option JSTree)
  | .vstr s => .ok (some (.str s))
  | .vnum n => .ok (some (.num n))
  | .vbool b => .ok (some (.bool b))
  | .vnull => .ok (some .null)
  | .vundef => .ok none
  | .vfunc => .ok none
  | .vsym _ => .ok none
  | .vbigint _ => .error .typeErr
  | .varr xs => do .ok (some (.arr (← serializeElems rec xs)))
  | .vobj fs => do .ok (some (.obj (← serializeFields rec fs)))
  | .vmap _ => .ok (some (.obj []))
  | .vset _ => .ok (some (.obj []))
  | .vdate _ => .ok (some (.obj []))
  | .vregex _ _ => .ok (some (.obj []))
  | .vtagged _ _ b => serializeInto rec b

/-- One step of ECMAScript `SerializeJSONProperty`: apply `toJSON`, then
the replacer (with access to the original value), then serialize the
replacement, recursing into members with `rec`. -/
def stringifyStep (reg : EncReg) (rec : JSVal → Except PErr (Option JSTree))
    (v : JSVal) : Except PErr (Option JSTree) := do
  let w ← replacerStep reg v (applyToJSON v)
  serializeInto rec w

/-- `JSON.stringify(input, replacer)` with an explicit recursion budget:
each nesting level of the replacement tree consumes one unit. -/
def stringifyProp (reg : EncReg) : Nat → JSVal → Except PErr (Option JSTree)
  | 0, _ => .error .outOfFuel
  | fuel + 1, v => stringifyStep reg (stringifyProp reg fuel) v

mutual
/-- A recursion budget sufficient for serializing `v` against the
built-in registry (each envelope adds bounded depth). -/
def pickleFuel : JSVal → Nat
  | .vstr _ => 1
  | .vnum _ => 1
  | .vbool _ => 1
  | .vnull => 1
  | .vundef => 1
  | .vfunc => 1
  | .vsym _ => 3
  | .vbigint _ => 3
  | .vdate _ => 3
  | .vregex _ _ => 5
  | .varr xs => 1 + pickleFuelList xs
  | .vobj fs => 1 + pickleFuelFields fs
  | .vmap es => 4 + pickleFuelPairs es
  | .vset xs => 3 + pickleFuelList xs
  | .vtagged _ tj b => 4 + pickleFuelOpt tj + pickleFuel b

def pickleFuelList : List JSVal → Nat
  | [] => 0
  | x :: xs => pickleFuel x + pickleFuelList xs

def pickleFuelFields : List (String × JSVal) → Nat
  | [] => 0
  | (_, x) :: xs => pickleFuel x + pickleFuelFields xs

def pickleFuelPairs : List (JSVal × JSVal) → Nat
  | [] => 0
  | (a, b) :: xs => 2 + pickleFuel a + pickleFuel b + pickleFuelPairs xs

def pickleFuelOpt : Option JSVal → Nat
  | none => 0
  | some x => pickleFuel x
end

/-- `PickleWith reg input`: `JSON.stringify(input, replacer)` against
registry `reg`; `.ok none` models `JSON.stringify` returning `undefined`. -/
def PickleWith (reg : EncReg) (input : JSVal) : Except PErr (Option JSTree) :=
  stringifyProp reg (pickleFuel input) input

/-- `Pickle` from the source, against the built-in registry. -/
def Pickle (input : JSVal) : Except PErr (Option JSTree) :=
  PickleWith thePicklers input

/-! ## JSON text printing -/

/-- JSON string escaping for the characters occurring in this
development (quote and backslash; control characters do not occur). -/
def escChar (c : Char) : String :=
  if c = '"' then "\\\"" else if c = '\\' then "\\\\" else String.singleton c

def escapeStr (s : String) : String :=
  String.join (s.data.map escChar)

mutual
/-- Print a JSON tree as compact JSON text. -/
def printTree : JSTree → String
  | .str s => "\"" ++ escapeStr s ++ "\""
  | .num n => intToDec n
  | .bool true => "true"
  | .bool false => "false"
  | .null => "null"
  | .arr xs => "[" ++ printTreeList xs ++ "]"
  | .obj fs => "\x7b" ++ printTreeFields fs ++ "\x7d"

def printTreeList : List JSTree → String
  | [] => ""
  | [x] => printTree x
  | x :: xs => printTree x ++ "," ++ printTreeList xs

def printTreeFields : List (String × JSTree) → String
  | [] => ""
  | [(k, x)] => "\"" ++ escapeStr k ++ "\":" ++ printTree x
  | (k, x) :: xs =>
    "\"" ++ escapeStr k ++ "\":" ++ printTree x ++ "," ++ printTreeFields xs
end

/-- `Pickle` as text: `.ok none` models `JSON.stringify` returning
`undefined` instead of a string. -/
def PickleText (input : JSVal) : Except PErr (Option String) :=
  (Pickle input).map (·.map printTree)

/-! ## Decode (`JSON.parse(input, reviver)`) -/

/-- `getUnpickler keyName`: `unpicklers.get(Symbol.for(keyName))`. -/
def getUnpickler (dreg : DecReg) (keyName : String) : Option FromFlatM :=
  lookupTag dreg (.forKey keyName)

/-- The source `reviver`, per node: envelopes whose tag has a registered
decoder that returns a defined value are replaced by that value; all
other nodes (including envelopes with unknown tags or refused payloads)
pass through unchanged. -/
def reviverStep (dreg : DecReg) (value : JSVal) : Except RErr JSVal :=
  if isFlattenedV value then
    match getUnpickler dreg (GetFlatV value).1 with
    | some pickler => do
      match ← pickler (GetFlatV value).2 with
      | some res => .ok res
      | none => .ok value
    | none => .ok value
  else .ok value

mutual
/-- `JSON.parse(text, reviver)` on an already-parsed tree: children are
revived before their parent (bottom-up), and the reviver runs once per
node. -/
def revive (dreg : DecReg) : JSTree → Except RErr JSVal
  | .str s => reviverStep dreg (.vstr s)
  | .num n => reviverStep dreg (.vnum n)
  | .bool b => reviverStep dreg (.vbool b)
  | .null => reviverStep dreg .vnull
  | .arr xs => do reviverStep dreg (.varr (← reviveList dreg xs))
  | .obj fs => do reviverStep dreg (.vobj (← reviveFields dreg fs))

def reviveList (dreg : DecReg) : List JSTree → Except RErr (List JSVal)
  | [] => .ok []
  | x :: xs => do
    let v ← revive dreg x
    let vs ← reviveList dreg xs
    .ok (v :: vs)

def reviveFields (dreg : DecReg) :
    List (String × JSTree) → Except RErr (List (String × JSVal))
  | [] => .ok []
  | (k, x) :: xs => do
    let v ← revive dreg x
    let vs ← reviveFields dreg xs
    .ok ((k, v) :: vs)
end

/-- `Unpickle` on the parse tree of well-formed text, against the
built-in registry. -/
def Unpickle (input : JSTree) : Except RErr JSVal :=
  revive theUnpicklers input

/-- `UnsafelyUnpickle` is `Unpickle` with a type assertion. -/
def UnsafelyUnpickle (input : JSTree) : Except RErr JSVal :=
  Unpickle input

/-- `SafelyUnpickle`: run `UnsafelyUnpickle`, then apply the caller's
predicate; a rejected root yields `undefined` rather than an error. -/
def SafelyUnpickle (input : JSTree) (check : JSVal → Bool) :
    Except RErr (Option JSVal) := do
  let res ← UnsafelyUnpickle input
  .ok (if check res then some res else none)

/-- `RegisterForPickling`: decode handler always set; encode handler set
when supplied. -/
def RegisterForPickling (encReg : EncReg) (decReg : DecReg) (pickleTag : JSym)
    (fromString : FromFlatM) (toString : Option PEnc) : EncReg × DecReg :=
  (match toString with
   | some f => setHandler encReg pickleTag f
   | none => encReg,
   setHandler decReg pickleTag fromString)

/-! ## The expected pickled tree and the valid-value class -/

/-- The envelope tree. -/
def envT (name : String) (payload : JSTree) : JSTree :=
  .obj [("@dataType", .str name), ("@dataValue", payload)]

mutual
/-- The tree `Pickle` produces for a value in the valid class below
(arbitrary placeholders outside it). -/
def encTree : JSVal → JSTree
  | .vstr s => .str s
  | .vnum n => .num n
  | .vbool b => .bool b
  | .vnull => .null
  | .vundef => .null
  | .vfunc => .null
  | .vsym (.forKey k) => envT "freik.Symbol" (.str k)
  | .vsym (.unkeyed _) => .null
  | .vbigint n => envT "freik.BigInt" (.str (intToDec n))
  | .vdate (some t) => envT "freik.Date" (.str (intToDec t))
  | .vdate none => .null
  | .vregex s f => envT "freik.RegExp" (.obj [("source", .str s), ("flags", .str f)])
  | .varr xs => .arr (encTreeList xs)
  | .vobj fs => .obj (encTreeFields fs)
  | .vmap es => envT "freik.Map" (.arr (encTreePairs es))
  | .vset xs => envT "freik.Set" (.arr (encTreeList xs))
  | .vtagged _ _ _ => .null

def encTreeList : List JSVal → List JSTree
  | [] => []
  | x :: xs => encTree x :: encTreeList xs

def encTreeFields : List (String × JSVal) → List (String × JSTree)
  | [] => []
  | (k, x) :: xs => (k, encTree x) :: encTreeFields xs

def encTreePairs : List (JSVal × JSVal) → List JSTree
  | [] => []
  | (a, b) :: xs => .arr [encTree a, encTree b] :: encTreePairs xs
end

mutual
/-- The valid-value class for the round-trip laws: serializer-safe
primitives, global-registry symbols, bigints, valid Dates, RegExps with
well-formed flags, and lists / plain records / Maps / Sets thereof — with
two restrictions the code imposes: a plain record must not itself match
the reserved envelope shape, and Map and Set members must pass the
`isSimpleObject` payload check after revival (which excludes symbols and
bigints sitting inside a Map or Set, directly or under plain
lists/records). -/
def ValidPickle : JSVal → Bool
  | .vstr _ => true
  | .vnum _ => true
  | .vbool _ => true
  | .vnull => true
  | .vundef => false
  | .vfunc => false
  | .vsym (.forKey _) => true
  | .vsym (.unkeyed _) => false
  | .vbigint _ => true
  | .vdate (some _) => true
  | .vdate none => false
  | .vregex _ f => validFlags f
  | .varr xs => ValidPickleList xs
  | .vobj fs => !isFlattenedV (.vobj fs) && ValidPickleFields fs
  | .vmap es => ValidPicklePairs es
  | .vset xs => ValidPickleSimpleList xs
  | .vtagged _ _ _ => false

def ValidPickleList : List JSVal → Bool
  | [] => true
  | x :: xs => ValidPickle x && ValidPickleList xs

def ValidPickleFields : List (String × JSVal) → Bool
  | [] => true
  | (_, x) :: xs => ValidPickle x && ValidPickleFields xs

def ValidPicklePairs : List (JSVal × JSVal) → Bool
  | [] => true
  | (a, b) :: xs =>
    ValidPickle a && isSimpleObjectV a && ValidPickle b && isSimpleObjectV b
      && ValidPicklePairs xs

def ValidPickleSimpleList : List JSVal → Bool
  | [] => true
  | x :: xs => ValidPickle x && isSimpleObjectV x && ValidPickleSimpleList xs
end

/-- The five claim-1 built-in types (plus Symbol is excluded there):
value is itself a Map, Set, Date, RegExp or BigInt. -/
def SpecialTop : JSVal → Bool
  | .vmap _ => true
  | .vset _ => true
  | .vdate _ => true
  | .vregex _ _ => true
  | .vbigint _ => true
  | _ => false

mutual
/-- No Custom-Type Marker anywhere in the value. -/
def NoTagged : JSVal → Bool
  | .vtagged _ _ _ => false
  | .varr xs => NoTaggedList xs
  | .vobj fs => NoTaggedFields fs
  | .vmap es => NoTaggedPairs es
  | .vset xs => NoTaggedList xs
  | _ => true

def NoTaggedList : List JSVal → Bool
  | [] => true
  | x :: xs => NoTagged x && NoTaggedList xs

def NoTaggedFields : List (String × JSVal) → Bool
  | [] => true
  | (_, x) :: xs => NoTagged x && NoTaggedFields xs

def NoTaggedPairs : List (JSVal × JSVal) → Bool
  | [] => true
  | (a, b) :: xs => NoTagged a && NoTagged b && NoTaggedPairs xs
end

mutual
/-- A locally created (keyless) symbol occurs somewhere in the value, in
a position the encode traversal serializes. -/
def HasBadSym : JSVal → Bool
  | .vsym (.unkeyed _) => true
  | .varr xs => HasBadSymList xs
  | .vobj fs => HasBadSymFields fs
  | .vmap es => HasBadSymPairs es
  | .vset xs => HasBadSymList xs
  | _ => false

def HasBadSymList : List JSVal → Bool
  | [] => false
  | x :: xs => HasBadSym x || HasBadSymList xs

def HasBadSymFields : List (String × JSVal) → Bool
  | [] => false
  | (_, x) :: xs => HasBadSym x || HasBadSymFields xs

def HasBadSymPairs : List (JSVal × JSVal) → Bool
  | [] => false
  | (a, b) :: xs => HasBadSym a || HasBadSym b || HasBadSymPairs xs
end

/-- All six built-in tags have encode handlers in `reg` (the program
seeds them at load and offers no removal, so this holds for every
reachable registry). -/
def SixPresent (reg : EncReg) : Bool :=
  (lookupTag reg MapTag).isSome && (lookupTag reg SetTag).isSome
    && (lookupTag reg SymbolTag).isSome && (lookupTag reg RegexTag).isSome
    && (lookupTag reg DateTag).isSome && (lookupTag reg BigIntTag).isSome

/-- Written from the claim's words, not from the source: test the value
against the built-in predicates in exactly the order Map, Set, Symbol,
Regex, Date, BigInt; the first match decides the tag and its registered
encoder. -/
def firstMatchSpec (reg : EncReg) (v : JSVal) : Option (JSym × PEnc) :=
  if isMapV v then (lookupTag reg MapTag).map (fun p => (MapTag, p))
  else if isSetV v then (lookupTag reg SetTag).map (fun p => (SetTag, p))
  else if isSymbolV v then (lookupTag reg SymbolTag).map (fun p => (SymbolTag, p))
  else if isRegexV v then (lookupTag reg RegexTag).map (fun p => (RegexTag, p))
  else if isDateV v then (lookupTag reg DateTag).map (fun p => (DateTag, p))
  else if isBigIntV v then (lookupTag reg BigIntTag).map (fun p => (BigIntTag, p))
  else none

/-- Written from the (amended) claim's words, not from the source: a
marker whose tag has a registered encoder wins; otherwise a marker with a
`toJSON` method uses the fallback closure under the marker's tag;
otherwise the ordered built-in scan decides. -/
def dispSpec (reg : EncReg) (v : JSVal) : Option (JSym × PEnc) :=
  match markerOf v with
  | some s =>
    match lookupTag reg s with
    | some p => some (s, p)
    | none =>
      if hasToJSONMethodV v then some (s, toJSONClosure)
      else firstMatchSpec reg v
  | none => firstMatchSpec reg v

/-- A custom encoder registered under a keyless symbol, for exercising
the keyless-marker pass-through. -/
def customPayloadEnc : PEnc := fun _ => .ok (.vstr "payload")

/-- The built-in registry extended with `customPayloadEnc` under the
keyless symbol `unkeyed 0`. -/
def extReg0 : EncReg := setHandler thePicklers (.unkeyed 0) customPayloadEnc

/-- The source predicate `isSet` as a root check for `SafelyUnpickle`. -/
def chkIsSet : JSVal → Bool := isSetV

/-- The source predicate `isMap` as a root check for `SafelyUnpickle`. -/
def chkIsMap : JSVal → Bool := isMapV

theorem natDigitsGo_irrel : ∀ (f f' n : Nat), n ≤ f → n ≤ f' →
    natDigitsGo f n = natDigitsGo f' n := by
  intro f
  induction f with
  | zero =>
    intro f' n hf hf'
    have : n = 0 := by omega
    subst this
    cases f' <;> simp [natDigitsGo]
  | succ f ih =>
    intro f' n hf hf'
    by_cases hn : n = 0
    · subst hn
      cases f' <;> simp [natDigitsGo]
    · obtain ⟨f'', rfl⟩ : ∃ f'', f' = f'' + 1 := ⟨f' - 1, by omega⟩
      rw [natDigitsGo, natDigitsGo, if_neg hn, if_neg hn]
      have hlt : n / 10 < n := Nat.div_lt_self (by omega) (by omega)
      rw [ih f'' (n / 10) (by omega) (by omega)]

theorem natDigitsLE_eq (n : Nat) (hn : n ≠ 0) :
    natDigitsLE n = (n % 10) :: natDigitsLE (n / 10) := by
  rw [natDigitsLE, natDigitsLE]
  obtain ⟨m, rfl⟩ : ∃ m, n = m + 1 := ⟨n - 1, by omega⟩
  rw [natDigitsGo, if_neg hn]
  have hlt : (m + 1) / 10 < m + 1 := Nat.div_lt_self (by omega) (by omega)
  rw [natDigitsGo_irrel m ((m + 1) / 10) ((m + 1) / 10) (by omega) (by omega)]

theorem digitVal_digitChar (d : Nat) (h : d < 10) :
    digitVal (digitChar d) = some d := by
  rw [digitChar, Nat.mod_eq_of_lt h]
  interval_cases d <;> decide

theorem parseDigitsAux_append (acc : Nat) (l₁ l₂ : List Char) :
    parseDigitsAux acc (l₁ ++ l₂) =
      match parseDigitsAux acc l₁ with
      | some a => parseDigitsAux a l₂
      | none => none := by
  induction l₁ generalizing acc with
  | nil => rfl
  | cons c cs ih =>
    simp only [List.cons_append, parseDigitsAux]
    cases digitVal c with
    | some d => exact ih _
    | none => rfl

theorem parseDigitsAux_digitsLE (n : Nat) : ∀ acc : Nat,
    parseDigitsAux acc (((natDigitsLE n).map digitChar).reverse) =
      some (acc * 10 ^ (natDigitsLE n).length + n) := by
  induction n using Nat.strong_induction_on with
  | _ n ih =>
    intro acc
    match n with
    | 0 => simp [natDigitsLE, natDigitsGo, parseDigitsAux]
    | m + 1 =>
      rw [natDigitsLE_eq (m + 1) (by omega)]
      simp only [List.map_cons, List.reverse_cons, List.length_cons]
      rw [parseDigitsAux_append]
      rw [ih ((m + 1) / 10) (Nat.div_lt_self (Nat.succ_pos m) (by omega)) acc]
      simp only [parseDigitsAux, digitVal_digitChar ((m + 1) % 10) (Nat.mod_lt _ (by omega))]
      congr 1
      have hdm : 10 * ((m + 1) / 10) + (m + 1) % 10 = m + 1 := Nat.div_add_mod (m + 1) 10
      have h2 : (acc * 10 ^ (natDigitsLE ((m + 1) / 10)).length + (m + 1) / 10) * 10
            + (m + 1) % 10
          = acc * (10 ^ (natDigitsLE ((m + 1) / 10)).length * 10)
            + (10 * ((m + 1) / 10) + (m + 1) % 10) := by ring
      rw [h2, hdm, ← pow_succ]

theorem decToNat?_cons (c : Char) (cs : List Char) :
    decToNat? (c :: cs) = parseDigitsAux 0 (c :: cs) := rfl

theorem decToNat?_natToDec (n : Nat) : decToNat? (natToDec n).data = some n := by
  match n with
  | 0 => rfl
  | m + 1 =>
    show decToNat? (((natDigitsLE (m + 1)).map digitChar).reverse) = some (m + 1)
    have hmain := parseDigitsAux_digitsLE (m + 1) 0
    rw [show (0 : Nat) * 10 ^ (natDigitsLE (m + 1)).length + (m + 1) = m + 1 by omega] at hmain
    rw [natDigitsLE_eq (m + 1) (by omega)] at hmain ⊢
    simp only [List.map_cons, List.reverse_cons] at hmain ⊢
    cases h : ((natDigitsLE ((m + 1) / 10)).map digitChar).reverse with
    | nil => rw [h] at hmain; simpa [decToNat?_cons] using hmain
    | cons c cs => rw [h] at hmain; simpa [decToNat?_cons] using hmain

theorem digitChar_ne_dash (d : Nat) : digitChar d ≠ '-' := by
  rw [digitChar]
  have hlt : d % 10 < 10 := Nat.mod_lt _ (by omega)
  interval_cases h : d % 10 <;> decide

theorem natToDec_no_dash (n : Nat) : ∀ c ∈ (natToDec n).data, c ≠ '-' := by
  match n with
  | 0 => intro c hc; simp [natToDec] at hc; simp [hc]
  | m + 1 =>
    intro c hc
    have : c ∈ ((natDigitsLE (m + 1)).map digitChar).reverse := hc
    rw [List.mem_reverse, List.mem_map] at this
    obtain ⟨d, _, rfl⟩ := this
    exact digitChar_ne_dash d

theorem decToInt?_intToDec (i : Int) : decToInt? (intToDec i) = some i := by
  by_cases hneg : i < 0
  · have hd : (intToDec i).data = '-' :: (natToDec i.natAbs).data := by
      rw [intToDec, if_pos hneg]
      rfl
    rw [decToInt?, hd, decToIntList?, if_pos rfl, decToNat?_natToDec i.natAbs]
    show some (-(i.natAbs : Int)) = some i
    congr 1
    omega
  · have hdec := decToNat?_natToDec i.natAbs
    have hd : (intToDec i).data = (natToDec i.natAbs).data := by
      rw [intToDec, if_neg hneg]
    rw [decToInt?, hd]
    cases hdd : (natToDec i.natAbs).data with
    | nil => rw [hdd] at hdec; simp [decToNat?] at hdec
    | cons c cs =>
      have hc : c ≠ '-' := natToDec_no_dash i.natAbs c (by rw [hdd]; exact List.mem_cons_self _ _)
      rw [hdd] at hdec
      rw [decToIntList?, if_neg hc, hdec]
      show some ((i.natAbs : Int)) = some i
      congr 1
      omega

/-! ## Support lemmas for the round-trip proofs -/

theorem pickleFuel_pos (v : JSVal) : 1 ≤ pickleFuel v := by
  cases v <;> simp [pickleFuel] <;> omega

theorem pickleFuelList_mem {x : JSVal} {xs : List JSVal} (h : x ∈ xs) :
    pickleFuel x ≤ pickleFuelList xs := by
  induction xs with
  | nil => cases h
  | cons y ys ih =>
    rw [pickleFuelList]
    rcases List.mem_cons.mp h with rfl | h'
    · omega
    · have := ih h'
      omega

theorem pickleFuelFields_mem {k : String} {x : JSVal} {fs : List (String × JSVal)}
    (h : (k, x) ∈ fs) : pickleFuel x ≤ pickleFuelFields fs := by
  induction fs with
  | nil => cases h
  | cons y ys ih =>
    obtain ⟨ky, xy⟩ := y
    rw [pickleFuelFields]
    rcases List.mem_cons.mp h with heq | h'
    · cases heq
      omega
    · have := ih h'
      omega

theorem pickleFuelList_map_pairs (es : List (JSVal × JSVal)) :
    pickleFuelList (es.map (fun p => JSVal.varr [p.1, p.2])) ≤ pickleFuelPairs es := by
  induction es with
  | nil => simp [pickleFuelList, pickleFuelPairs]
  | cons p ps ih =>
    obtain ⟨a, b⟩ := p
    simp only [List.map_cons, pickleFuelList, pickleFuelPairs, pickleFuel]
    omega

theorem ValidPickleList_mem {x : JSVal} {xs : List JSVal}
    (hv : ValidPickleList xs = true) (h : x ∈ xs) : ValidPickle x = true := by
  induction xs with
  | nil => cases h
  | cons y ys ih =>
    rw [ValidPickleList, Bool.and_eq_true] at hv
    rcases List.mem_cons.mp h with rfl | h'
    · exact hv.1
    · exact ih hv.2 h'

theorem ValidPickleFields_mem {k : String} {x : JSVal} {fs : List (String × JSVal)}
    (hv : ValidPickleFields fs = true) (h : (k, x) ∈ fs) : ValidPickle x = true := by
  induction fs with
  | nil => cases h
  | cons y ys ih =>
    obtain ⟨ky, xy⟩ := y
    rw [ValidPickleFields, Bool.and_eq_true] at hv
    rcases List.mem_cons.mp h with heq | h'
    · cases heq
      exact hv.1
    · exact ih hv.2 h'

theorem ValidPickleSimpleList_forget {xs : List JSVal}
    (hv : ValidPickleSimpleList xs = true) : ValidPickleList xs = true := by
  induction xs with
  | nil => rfl
  | cons y ys ih =>
    rw [ValidPickleSimpleList] at hv
    simp only [Bool.and_eq_true] at hv
    obtain ⟨⟨h1, h2⟩, h3⟩ := hv
    rw [ValidPickleList]
    simp only [Bool.and_eq_true]
    exact ⟨h1, ih h3⟩

theorem ValidPickleSimpleList_simple {xs : List JSVal}
    (hv : ValidPickleSimpleList xs = true) : isSimpleList xs = true := by
  induction xs with
  | nil => rfl
  | cons y ys ih =>
    rw [ValidPickleSimpleList] at hv
    simp only [Bool.and_eq_true] at hv
    obtain ⟨⟨h1, h2⟩, h3⟩ := hv
    rw [isSimpleList]
    simp only [Bool.and_eq_true]
    exact ⟨h2, ih h3⟩

theorem ValidPicklePairs_split {es : List (JSVal × JSVal)}
    (hv : ValidPicklePairs es = true) :
    ValidPickleList (es.map (fun p => JSVal.varr [p.1, p.2])) = true := by
  induction es with
  | nil => rfl
  | cons p ps ih =>
    obtain ⟨a, b⟩ := p
    rw [ValidPicklePairs] at hv
    simp only [Bool.and_eq_true] at hv
    obtain ⟨⟨⟨⟨ha, hsa⟩, hb⟩, hsb⟩, hrest⟩ := hv
    simp only [List.map_cons, ValidPickleList, ValidPickle, Bool.and_eq_true]
    exact ⟨⟨ha, hb, trivial⟩, ih hrest⟩

theorem ValidPicklePairs_simple {es : List (JSVal × JSVal)}
    (hv : ValidPicklePairs es = true) :
    isSimpleList (es.map (fun p => JSVal.varr [p.1, p.2])) = true := by
  induction es with
  | nil => rfl
  | cons p ps ih =>
    obtain ⟨a, b⟩ := p
    rw [ValidPicklePairs] at hv
    simp only [Bool.and_eq_true] at hv
    obtain ⟨⟨⟨⟨ha, hsa⟩, hb⟩, hsb⟩, hrest⟩ := hv
    simp only [List.map_cons, isSimpleList, isSimpleObjectV, Bool.and_eq_true]
    exact ⟨⟨hsa, hsb, trivial⟩, ih hrest⟩

theorem encTreeList_map_pairs (es : List (JSVal × JSVal)) :
    encTreeList (es.map (fun p => JSVal.varr [p.1, p.2])) = encTreePairs es := by
  induction es with
  | nil => rfl
  | cons p ps ih =>
    obtain ⟨a, b⟩ := p
    simp only [List.map_cons, encTreeList, encTreePairs, encTree, ih]

theorem serializeElems_ok (rec : JSVal → Except PErr (Option JSTree))
    (xs : List JSVal) (h : ∀ x ∈ xs, rec x = .ok (some (encTree x))) :
    serializeElems rec xs = .ok (encTreeList xs) := by
  induction xs with
  | nil => rfl
  | cons y ys ih =>
    rw [serializeElems, h y (List.mem_cons_self y ys),
      ih (fun x hx => h x (List.mem_cons_of_mem _ hx))]
    rfl

theorem serializeFields_ok (rec : JSVal → Except PErr (Option JSTree))
    (fs : List (String × JSVal))
    (h : ∀ k x, (k, x) ∈ fs → rec x = .ok (some (encTree x))) :
    serializeFields rec fs = .ok (encTreeFields fs) := by
  induction fs with
  | nil => rfl
  | cons y ys ih =>
    obtain ⟨ky, xy⟩ := y
    rw [serializeFields, h ky xy (List.mem_cons_self _ _),
      ih (fun k x hx => h k x (List.mem_cons_of_mem _ hx))]
    rfl

theorem serializeInto_MakeFlat (rec : JSVal → Except PErr (Option JSTree))
    (name : String) (p : JSVal) (t : JSTree)
    (hname : rec (.vstr name) = .ok (some (.str name)))
    (hp : rec p = .ok (some t)) :
    serializeInto rec (MakeFlat name p) = .ok (some (envT name t)) := by
  rw [MakeFlat, serializeInto, serializeFields, hname, serializeFields, hp,
    serializeFields]
  rfl

/-! ## Evaluating the per-node replace on each value shape -/

theorem stringifyStep_eq (reg : EncReg) (rec : JSVal → Except PErr (Option JSTree))
    (v : JSVal) :
    stringifyStep reg rec v =
      (replacerStep reg v (applyToJSON v)).bind (fun w => serializeInto rec w) := rfl

theorem except_bind_ok {α β ε : Type} (a : α) (f : α → Except ε β) :
    (Except.ok (ε := ε) a).bind f = f a := rfl

theorem except_mbind_ok {ε α β : Type} (a : α) (f : α → Except ε β) :
    (Except.ok a >>= f) = f a := rfl

theorem replacer_varr (reg : EncReg) (xs : List JSVal) :
    replacerStep reg (.varr xs) (applyToJSON (.varr xs)) = .ok (.varr xs) := rfl

theorem replacer_vobj (reg : EncReg) (fs : List (String × JSVal)) :
    replacerStep reg (.vobj fs) (applyToJSON (.vobj fs)) = .ok (.vobj fs) := rfl

theorem replacer_vmap (es : List (JSVal × JSVal)) :
    replacerStep thePicklers (.vmap es) (applyToJSON (.vmap es)) =
      .ok (MakeFlat "freik.Map" (.varr (es.map (fun p => .varr [p.1, p.2])))) := rfl

theorem replacer_vset (xs : List JSVal) :
    replacerStep thePicklers (.vset xs) (applyToJSON (.vset xs)) =
      .ok (MakeFlat "freik.Set" (.varr xs)) := rfl

theorem replacer_vsym_key (k : String) :
    replacerStep thePicklers (.vsym (.forKey k)) (applyToJSON (.vsym (.forKey k))) =
      .ok (MakeFlat "freik.Symbol" (.vstr k)) := rfl

theorem replacer_vregex (s f : String) :
    replacerStep thePicklers (.vregex s f) (applyToJSON (.vregex s f)) =
      .ok (MakeFlat "freik.RegExp" (.vobj [("source", .vstr s), ("flags", .vstr f)])) := rfl

theorem replacer_vdate (t : Int) :
    replacerStep thePicklers (.vdate (some t)) (applyToJSON (.vdate (some t))) =
      .ok (MakeFlat "freik.Date" (.vstr (intToDec t))) := rfl

theorem replacer_vbigint (n : Int) :
    replacerStep thePicklers (.vbigint n) (applyToJSON (.vbigint n)) =
      .ok (MakeFlat "freik.BigInt" (.vstr (intToDec n))) := rfl

theorem stringify_str (reg : EncReg) (fuel : Nat) (s : String) :
    stringifyProp reg (fuel + 1) (.vstr s) = .ok (some (.str s)) := rfl

theorem stringify_regex_payload (reg : EncReg) (fuel : Nat) (s fl : String) :
    stringifyProp reg (fuel + 1 + 1) (.vobj [("source", .vstr s), ("flags", .vstr fl)]) =
      .ok (some (.obj [("source", .str s), ("flags", .str fl)])) := rfl

theorem stringifyStep_env (reg : EncReg) (rec : JSVal → Except PErr (Option JSTree))
    (v : JSVal) (name : String) (p : JSVal) (t : JSTree)
    (hrep : replacerStep reg v (applyToJSON v) = .ok (MakeFlat name p))
    (hname : rec (.vstr name) = .ok (some (.str name)))
    (hp : rec p = .ok (some t)) :
    stringifyStep reg rec v = .ok (some (envT name t)) := by
  rw [stringifyStep_eq, hrep, except_bind_ok]
  exact serializeInto_MakeFlat rec name p t hname hp

/-! ## The main encode characterization -/

/-- On the valid class, `JSON.stringify` with the source replacer and the
built-in registry produces exactly the expected tree, given enough
budget. -/
theorem stringify_ok : ∀ (fuel : Nat) (v : JSVal), ValidPickle v = true →
    pickleFuel v ≤ fuel →
    stringifyProp thePicklers fuel v = .ok (some (encTree v)) := by
  intro fuel
  induction fuel with
  | zero =>
    intro v _ hfl
    have := pickleFuel_pos v
    omega
  | succ fuel ih =>
    intro v hv hfl
    match v with
    | .vstr s => rfl
    | .vnum n => rfl
    | .vbool b => rfl
    | .vnull => rfl
    | .vundef => simp [ValidPickle] at hv
    | .vfunc => simp [ValidPickle] at hv
    | .vtagged mk tj b => simp [ValidPickle] at hv
    | .vsym (.unkeyed i) => simp [ValidPickle] at hv
    | .vdate none => simp [ValidPickle] at hv
    | .vsym (.forKey k) =>
      obtain ⟨f', rfl⟩ : ∃ f', fuel = f' + 1 := by
        refine ⟨fuel - 1, ?_⟩
        simp only [pickleFuel] at hfl
        omega
      rw [show stringifyProp thePicklers (f' + 1 + 1) (.vsym (.forKey k))
            = stringifyStep thePicklers (stringifyProp thePicklers (f' + 1))
                (.vsym (.forKey k)) from rfl]
      rw [stringifyStep_env _ _ _ "freik.Symbol" (.vstr k) (.str k)
        (replacer_vsym_key k) (stringify_str _ _ _) (stringify_str _ _ _)]
      rfl
    | .vbigint n =>
      obtain ⟨f', rfl⟩ : ∃ f', fuel = f' + 1 := by
        refine ⟨fuel - 1, ?_⟩
        simp only [pickleFuel] at hfl
        omega
      rw [show stringifyProp thePicklers (f' + 1 + 1) (.vbigint n)
            = stringifyStep thePicklers (stringifyProp thePicklers (f' + 1))
                (.vbigint n) from rfl]
      rw [stringifyStep_env _ _ _ "freik.BigInt" (.vstr (intToDec n)) (.str (intToDec n))
        (replacer_vbigint n) (stringify_str _ _ _) (stringify_str _ _ _)]
      rfl
    | .vdate (some t) =>
      obtain ⟨f', rfl⟩ : ∃ f', fuel = f' + 1 := by
        refine ⟨fuel - 1, ?_⟩
        simp only [pickleFuel] at hfl
        omega
      rw [show stringifyProp thePicklers (f' + 1 + 1) (.vdate (some t))
            = stringifyStep thePicklers (stringifyProp thePicklers (f' + 1))
                (.vdate (some t)) from rfl]
      rw [stringifyStep_env _ _ _ "freik.Date" (.vstr (intToDec t)) (.str (intToDec t))
        (replacer_vdate t) (stringify_str _ _ _) (stringify_str _ _ _)]
      rfl
    | .vregex s fl =>
      obtain ⟨f', rfl⟩ : ∃ f', fuel = f' + 1 + 1 := by
        refine ⟨fuel - 2, ?_⟩
        simp only [pickleFuel] at hfl
        omega
      rw [show stringifyProp thePicklers (f' + 1 + 1 + 1) (.vregex s fl)
            = stringifyStep thePicklers (stringifyProp thePicklers (f' + 1 + 1))
                (.vregex s fl) from rfl]
      rw [stringifyStep_env _ _ _ "freik.RegExp"
        (.vobj [("source", .vstr s), ("flags", .vstr fl)])
        (.obj [("source", .str s), ("flags", .str fl)])
        (replacer_vregex s fl) (stringify_str _ _ _)
        (stringify_regex_payload _ _ _ _)]
      rfl
    | .varr xs =>
      have hv' : ValidPickleList xs = true := by simpa [ValidPickle] using hv
      have hfl' : pickleFuelList xs ≤ fuel := by
        simp only [pickleFuel] at hfl
        omega
      have helems : ∀ x ∈ xs, stringifyProp thePicklers fuel x = .ok (some (encTree x)) := by
        intro x hx
        refine ih x (ValidPickleList_mem hv' hx) ?_
        have := pickleFuelList_mem hx
        omega
      rw [show stringifyProp thePicklers (fuel + 1) (.varr xs)
            = stringifyStep thePicklers (stringifyProp thePicklers fuel) (.varr xs) from rfl]
      rw [stringifyStep_eq, replacer_varr, except_bind_ok]
      show (serializeElems (stringifyProp thePicklers fuel) xs).bind
          (fun l => Except.ok (some (JSTree.arr l)))
        = Except.ok (some (encTree (JSVal.varr xs)))
      rw [serializeElems_ok _ _ helems, except_bind_ok]
      simp [encTree]
    | .vobj fs =>
      have hv' : ValidPickleFields fs = true := by
        have := hv
        simp only [ValidPickle, Bool.and_eq_true] at this
        exact this.2
      have hfl' : pickleFuelFields fs ≤ fuel := by
        simp only [pickleFuel] at hfl
        omega
      have hflds : ∀ k x, (k, x) ∈ fs →
          stringifyProp thePicklers fuel x = .ok (some (encTree x)) := by
        intro k x hx
        refine ih x (ValidPickleFields_mem hv' hx) ?_
        have := pickleFuelFields_mem hx
        omega
      rw [show stringifyProp thePicklers (fuel + 1) (.vobj fs)
            = stringifyStep thePicklers (stringifyProp thePicklers fuel) (.vobj fs) from rfl]
      rw [stringifyStep_eq, replacer_vobj, except_bind_ok]
      show (serializeFields (stringifyProp thePicklers fuel) fs).bind
          (fun l => Except.ok (some (JSTree.obj l)))
        = Except.ok (some (encTree (JSVal.vobj fs)))
      rw [serializeFields_ok _ _ hflds, except_bind_ok]
      simp [encTree]
    | .vset xs =>
      have hv' : ValidPickleSimpleList xs = true := by simpa [ValidPickle] using hv
      obtain ⟨f', rfl⟩ : ∃ f', fuel = f' + 1 := by
        refine ⟨fuel - 1, ?_⟩
        simp only [pickleFuel] at hfl
        have := pickleFuel_pos (JSVal.vset xs)
        omega
      have hpay : stringifyProp thePicklers (f' + 1) (.varr xs) =
          .ok (some (.arr (encTreeList xs))) := by
        have h := ih (.varr xs) (by
          simp only [ValidPickle]
          exact ValidPickleSimpleList_forget hv')
          (by
            simp only [pickleFuel] at hfl ⊢
            omega)
        rw [h]
        simp [encTree]
      rw [show stringifyProp thePicklers (f' + 1 + 1) (.vset xs)
            = stringifyStep thePicklers (stringifyProp thePicklers (f' + 1))
                (.vset xs) from rfl]
      rw [stringifyStep_env _ _ _ "freik.Set" (.varr xs) (.arr (encTreeList xs))
        (replacer_vset xs) (stringify_str _ _ _) hpay]
      rfl
    | .vmap es =>
      have hv' : ValidPicklePairs es = true := by simpa [ValidPickle] using hv
      obtain ⟨f', rfl⟩ : ∃ f', fuel = f' + 1 := by
        refine ⟨fuel - 1, ?_⟩
        simp only [pickleFuel] at hfl
        omega
      have hpay : stringifyProp thePicklers (f' + 1)
          (.varr (es.map (fun p => .varr [p.1, p.2]))) =
          .ok (some (.arr (encTreePairs es))) := by
        have h := ih (.varr (es.map (fun p => .varr [p.1, p.2])))
          (by
            simp only [ValidPickle]
            exact ValidPicklePairs_split hv')
          (by
            have h1 := pickleFuelList_map_pairs es
            simp only [pickleFuel] at hfl ⊢
            omega)
        rw [h]
        simp [encTree, encTreeList_map_pairs]
      rw [show stringifyProp thePicklers (f' + 1 + 1) (.vmap es)
            = stringifyStep thePicklers (stringifyProp thePicklers (f' + 1))
                (.vmap es) from rfl]
      rw [stringifyStep_env _ _ _ "freik.Map"
        (.varr (es.map (fun p => .varr [p.1, p.2]))) (.arr (encTreePairs es))
        (replacer_vmap es) (stringify_str _ _ _) hpay]
      rfl

/-- `Pickle` on the valid class: defined, and equal to the expected
tree. -/
theorem Pickle_ok (v : JSVal) (hv : ValidPickle v = true) :
    Pickle v = .ok (some (encTree v)) :=
  stringify_ok (pickleFuel v) v hv (Nat.le_refl _)

/-! ## The main decode characterization -/

theorem reviveFields_nil (dreg : DecReg) : reviveFields dreg [] = .ok [] := rfl

theorem reviveFields_cons (dreg : DecReg) (k : String) (x : JSTree)
    (xs : List (String × JSTree)) :
    reviveFields dreg ((k, x) :: xs) =
      (revive dreg x).bind (fun v =>
        (reviveFields dreg xs).bind (fun vs => .ok ((k, v) :: vs))) := rfl

theorem reviveList_cons (dreg : DecReg) (x : JSTree) (xs : List JSTree) :
    reviveList dreg (x :: xs) =
      (revive dreg x).bind (fun v =>
        (reviveList dreg xs).bind (fun vs => .ok (v :: vs))) := rfl

theorem revive_arr (dreg : DecReg) (xs : List JSTree) :
    revive dreg (.arr xs) =
      (reviveList dreg xs).bind (fun vs => reviverStep dreg (.varr vs)) := rfl

theorem revive_obj (dreg : DecReg) (fs : List (String × JSTree)) :
    revive dreg (.obj fs) =
      (reviveFields dreg fs).bind (fun gs => reviverStep dreg (.vobj gs)) := rfl

theorem reviverStep_not_flattened (dreg : DecReg) (v : JSVal)
    (h : isFlattenedV v = false) : reviverStep dreg v = .ok v := by
  rw [reviverStep, if_neg (by simp [h])]

theorem reviveList_ok (xs : List JSVal)
    (h : ∀ x ∈ xs, revive theUnpicklers (encTree x) = .ok x) :
    reviveList theUnpicklers (encTreeList xs) = .ok xs := by
  induction xs with
  | nil => rfl
  | cons y ys ih =>
    rw [show encTreeList (y :: ys) = encTree y :: encTreeList ys from rfl]
    rw [reviveList_cons, h y (List.mem_cons_self _ _), except_bind_ok,
      ih (fun x hx => h x (List.mem_cons_of_mem _ hx)), except_bind_ok]

theorem reviveFields_ok (fs : List (String × JSVal))
    (h : ∀ k x, (k, x) ∈ fs → revive theUnpicklers (encTree x) = .ok x) :
    reviveFields theUnpicklers (encTreeFields fs) = .ok fs := by
  induction fs with
  | nil => rfl
  | cons y ys ih =>
    obtain ⟨ky, xy⟩ := y
    rw [show encTreeFields ((ky, xy) :: ys) = (ky, encTree xy) :: encTreeFields ys from rfl]
    rw [reviveFields_cons, h ky xy (List.mem_cons_self _ _), except_bind_ok,
      ih (fun k x hx => h k x (List.mem_cons_of_mem _ hx)), except_bind_ok]

theorem reviveList_pairs_ok (es : List (JSVal × JSVal))
    (h : ∀ p ∈ es, revive theUnpicklers (encTree p.1) = .ok p.1 ∧
      revive theUnpicklers (encTree p.2) = .ok p.2) :
    reviveList theUnpicklers (encTreePairs es) =
      .ok (es.map (fun p => .varr [p.1, p.2])) := by
  induction es with
  | nil => rfl
  | cons p ps ih =>
    obtain ⟨a, b⟩ := p
    obtain ⟨ha, hb⟩ := h (a, b) (List.mem_cons_self _ _)
    rw [show encTreePairs ((a, b) :: ps) =
      .arr [encTree a, encTree b] :: encTreePairs ps from rfl]
    rw [reviveList_cons, revive_arr, reviveList_cons, ha, except_bind_ok,
      reviveList_cons, hb, except_bind_ok]
    rw [show reviveList theUnpicklers [] = .ok [] from rfl, except_bind_ok,
      except_bind_ok, except_bind_ok]
    rw [reviverStep_not_flattened theUnpicklers (.varr [a, b]) rfl, except_bind_ok,
      ih (fun q hq => h q (List.mem_cons_of_mem _ hq)), except_bind_ok]
    rfl

/-- Reviving an envelope whose payload revives to a simple value and
whose tag has a registered decoder accepting that payload. -/
theorem revive_env_ok (name : String) (pt : JSTree) (pv : JSVal)
    (d : FromFlatM) (res : JSVal)
    (hpt : revive theUnpicklers pt = .ok pv)
    (hd : getUnpickler theUnpicklers name = some d)
    (hs : isSimpleObjectV pv = true)
    (hres : d pv = .ok (some res)) :
    revive theUnpicklers (envT name pt) = .ok res := by
  rw [show envT name pt = .obj [("@dataType", .str name), ("@dataValue", pt)] from rfl]
  rw [revive_obj, reviveFields_cons,
    show revive theUnpicklers (.str name) = Except.ok (.vstr name) from rfl,
    except_bind_ok, reviveFields_cons, hpt, except_bind_ok, reviveFields_nil,
    except_bind_ok, except_bind_ok, except_bind_ok]
  have hflat : isFlattenedV
      (.vobj [("@dataType", .vstr name), ("@dataValue", pv)]) = true := by
    simp only [isFlattenedV, hasStrFieldV, fieldGet]
    simp [hs]
  rw [reviverStep, if_pos (by simp [hflat])]
  rw [show GetFlatV (.vobj [("@dataType", .vstr name), ("@dataValue", pv)])
      = (name, pv) from rfl]
  simp only [hd, hres, except_bind_ok, except_mbind_ok]

theorem ValidPicklePairs_mem {p : JSVal × JSVal} {es : List (JSVal × JSVal)}
    (hv : ValidPicklePairs es = true) (h : p ∈ es) :
    ValidPickle p.1 = true ∧ ValidPickle p.2 = true := by
  induction es with
  | nil => cases h
  | cons q qs ih =>
    obtain ⟨a, b⟩ := q
    rw [ValidPicklePairs] at hv
    simp only [Bool.and_eq_true] at hv
    obtain ⟨⟨⟨⟨ha, _⟩, hb⟩, _⟩, hrest⟩ := hv
    rcases List.mem_cons.mp h with rfl | h'
    · exact ⟨ha, hb⟩
    · exact ih hrest h'

theorem pickleFuelPairs_mem {p : JSVal × JSVal} {es : List (JSVal × JSVal)}
    (h : p ∈ es) : pickleFuel p.1 + pickleFuel p.2 ≤ pickleFuelPairs es := by
  induction es with
  | nil => cases h
  | cons q qs ih =>
    obtain ⟨a, b⟩ := q
    rw [pickleFuelPairs]
    rcases List.mem_cons.mp h with rfl | h'
    · dsimp only
      omega
    · have := ih h'
      omega

theorem all_is2Tuple_pairs (es : List (JSVal × JSVal)) :
    (es.map (fun p => JSVal.varr [p.1, p.2])).all is2TupleV = true := by
  induction es with
  | nil => rfl
  | cons q qs ih =>
    obtain ⟨a, b⟩ := q
    simp only [List.map_cons, List.all_cons, Bool.and_eq_true]
    exact ⟨rfl, ih⟩

theorem map_pairOfTuple (es : List (JSVal × JSVal)) :
    (es.map (fun p => JSVal.varr [p.1, p.2])).map pairOfTuple = es := by
  induction es with
  | nil => rfl
  | cons q qs ih =>
    obtain ⟨a, b⟩ := q
    simp only [List.map_cons, pairOfTuple, ih]

/-- On the valid class, reviving the expected tree against the built-in
registry reconstructs the value exactly. -/
theorem revive_encTree : ∀ (n : Nat) (v : JSVal), ValidPickle v = true →
    pickleFuel v ≤ n →
    revive theUnpicklers (encTree v) = .ok v := by
  intro n
  induction n with
  | zero =>
    intro v _ hfl
    have := pickleFuel_pos v
    omega
  | succ n ih =>
    intro v hv hfl
    match v with
    | .vstr s => rfl
    | .vnum m => rfl
    | .vbool b => rfl
    | .vnull => rfl
    | .vundef => simp [ValidPickle] at hv
    | .vfunc => simp [ValidPickle] at hv
    | .vtagged mk tj b => simp [ValidPickle] at hv
    | .vsym (.unkeyed i) => simp [ValidPickle] at hv
    | .vdate none => simp [ValidPickle] at hv
    | .vsym (.forKey k) =>
      exact revive_env_ok "freik.Symbol" (.str k) (.vstr k) SymbolUnpickle
        (.vsym (.forKey k)) rfl rfl rfl rfl
    | .vbigint m =>
      refine revive_env_ok "freik.BigInt" (.str (intToDec m)) (.vstr (intToDec m))
        BigIntUnpickle (.vbigint m) rfl rfl rfl ?_
      show (match decToInt? (intToDec m) with
        | some n => Except.ok (some (JSVal.vbigint n))
        | none => (Except.ok none : Except RErr (Option JSVal)))
        = Except.ok (some (JSVal.vbigint m))
      rw [decToInt?_intToDec]
    | .vdate (some t) =>
      refine revive_env_ok "freik.Date" (.str (intToDec t)) (.vstr (intToDec t))
        DateUnpickle (.vdate (some t)) rfl rfl rfl ?_
      show (Except.ok (some (JSVal.vdate (decToInt? (intToDec t)))) :
          Except RErr (Option JSVal))
        = Except.ok (some (JSVal.vdate (some t)))
      rw [decToInt?_intToDec]
    | .vregex s fl =>
      have hflags : validFlags fl = true := by simpa [ValidPickle] using hv
      refine revive_env_ok "freik.RegExp"
        (.obj [("source", .str s), ("flags", .str fl)])
        (.vobj [("source", .vstr s), ("flags", .vstr fl)]) RegexUnpickle
        (.vregex s fl) rfl rfl rfl ?_
      show (if validFlags fl
          then Except.ok (some (JSVal.vregex s fl))
          else (Except.error .regexFlagsErr : Except RErr (Option JSVal)))
        = Except.ok (some (JSVal.vregex s fl))
      rw [if_pos hflags]
    | .varr xs =>
      have hv' : ValidPickleList xs = true := by simpa [ValidPickle] using hv
      have hx : ∀ x ∈ xs, revive theUnpicklers (encTree x) = .ok x := by
        intro x hxm
        refine ih x (ValidPickleList_mem hv' hxm) ?_
        have := pickleFuelList_mem hxm
        simp only [pickleFuel] at hfl
        omega
      show revive theUnpicklers (.arr (encTreeList xs)) = _
      rw [revive_arr, reviveList_ok xs hx, except_bind_ok,
        reviverStep_not_flattened theUnpicklers (.varr xs) rfl]
    | .vobj fs =>
      have hvand := hv
      simp only [ValidPickle, Bool.and_eq_true] at hvand
      obtain ⟨hnotflat, hv'⟩ := hvand
      have hx : ∀ k x, (k, x) ∈ fs → revive theUnpicklers (encTree x) = .ok x := by
        intro k x hxm
        refine ih x (ValidPickleFields_mem hv' hxm) ?_
        have := pickleFuelFields_mem hxm
        simp only [pickleFuel] at hfl
        omega
      show revive theUnpicklers (.obj (encTreeFields fs)) = _
      rw [revive_obj, reviveFields_ok fs hx, except_bind_ok,
        reviverStep_not_flattened theUnpicklers (.vobj fs) (by simpa using hnotflat)]
    | .vset xs =>
      have hv' : ValidPickleSimpleList xs = true := by simpa [ValidPickle] using hv
      have hx : ∀ x ∈ xs, revive theUnpicklers (encTree x) = .ok x := by
        intro x hxm
        refine ih x (ValidPickleList_mem (ValidPickleSimpleList_forget hv') hxm) ?_
        have := pickleFuelList_mem hxm
        simp only [pickleFuel] at hfl
        omega
      have hpt : revive theUnpicklers (.arr (encTreeList xs)) = .ok (.varr xs) := by
        rw [revive_arr, reviveList_ok xs hx, except_bind_ok,
          reviverStep_not_flattened theUnpicklers (.varr xs) rfl]
      show revive theUnpicklers (envT "freik.Set" (.arr (encTreeList xs))) = _
      exact revive_env_ok "freik.Set" (.arr (encTreeList xs)) (.varr xs)
        SetUnpickle (.vset xs) hpt rfl
        (by simpa [isSimpleObjectV] using ValidPickleSimpleList_simple hv') rfl
    | .vmap es =>
      have hv' : ValidPicklePairs es = true := by simpa [ValidPickle] using hv
      have hx : ∀ p ∈ es, revive theUnpicklers (encTree p.1) = .ok p.1 ∧
          revive theUnpicklers (encTree p.2) = .ok p.2 := by
        intro p hp
        obtain ⟨hva, hvb⟩ := ValidPicklePairs_mem hv' hp
        have hfb := pickleFuelPairs_mem hp
        simp only [pickleFuel] at hfl
        exact ⟨ih p.1 hva (by omega), ih p.2 hvb (by omega)⟩
      have hpt : revive theUnpicklers (.arr (encTreePairs es)) =
          .ok (.varr (es.map (fun p => .varr [p.1, p.2]))) := by
        rw [revive_arr, reviveList_pairs_ok es hx, except_bind_ok,
          reviverStep_not_flattened theUnpicklers
            (.varr (es.map (fun p => .varr [p.1, p.2]))) rfl]
      show revive theUnpicklers (envT "freik.Map" (.arr (encTreePairs es))) = _
      refine revive_env_ok "freik.Map" (.arr (encTreePairs es))
        (.varr (es.map (fun p => .varr [p.1, p.2]))) MapUnpickle
        (.vmap es) hpt rfl
        (by simpa [isSimpleObjectV] using ValidPicklePairs_simple hv') ?_
      show (if (es.map (fun p => JSVal.varr [p.1, p.2])).all is2TupleV
          then Except.ok
            (some (JSVal.vmap ((es.map (fun p => JSVal.varr [p.1, p.2])).map pairOfTuple)))
          else (Except.ok none : Except RErr (Option JSVal)))
        = Except.ok (some (JSVal.vmap es))
      rw [if_pos (all_is2Tuple_pairs es), map_pairOfTuple]

/-- `Unpickle` reconstructs a valid value from its expected tree. -/
theorem Unpickle_encTree (v : JSVal) (hv : ValidPickle v = true) :
    Unpickle (encTree v) = .ok v :=
  revive_encTree (pickleFuel v) v hv (Nat.le_refl _)

/-! ## Keyless symbols abort the encode -/

theorem serializeElems_bad (rec : JSVal → Except PErr (Option JSTree))
    (xs : List JSVal)
    (hall : ∀ x ∈ xs, HasBadSym x = true → ∃ e, rec x = .error e)
    (hbad : HasBadSymList xs = true) :
    ∃ e, serializeElems rec xs = .error e := by
  induction xs with
  | nil => simp [HasBadSymList] at hbad
  | cons y ys ih =>
    rw [HasBadSymList, Bool.or_eq_true] at hbad
    cases hrecy : rec y with
    | error e =>
      refine ⟨e, ?_⟩
      rw [serializeElems, hrecy]
      rfl
    | ok r =>
      cases hby : HasBadSym y with
      | true =>
        obtain ⟨e, he⟩ := hall y (List.mem_cons_self _ _) hby
        rw [he] at hrecy
        cases hrecy
      | false =>
        have hys : HasBadSymList ys = true := by
          rcases hbad with h | h
          · rw [hby] at h
            cases h
          · exact h
        obtain ⟨e, he⟩ := ih (fun x hx => hall x (List.mem_cons_of_mem _ hx)) hys
        refine ⟨e, ?_⟩
        rw [serializeElems, hrecy, he]
        rfl

theorem serializeFields_bad (rec : JSVal → Except PErr (Option JSTree))
    (fs : List (String × JSVal))
    (hall : ∀ k x, (k, x) ∈ fs → HasBadSym x = true → ∃ e, rec x = .error e)
    (hbad : HasBadSymFields fs = true) :
    ∃ e, serializeFields rec fs = .error e := by
  induction fs with
  | nil => simp [HasBadSymFields] at hbad
  | cons y ys ih =>
    obtain ⟨ky, xy⟩ := y
    rw [HasBadSymFields, Bool.or_eq_true] at hbad
    cases hrecy : rec xy with
    | error e =>
      refine ⟨e, ?_⟩
      rw [serializeFields, hrecy]
      rfl
    | ok r =>
      cases hby : HasBadSym xy with
      | true =>
        obtain ⟨e, he⟩ := hall ky xy (List.mem_cons_self _ _) hby
        rw [he] at hrecy
        cases hrecy
      | false =>
        have hys : HasBadSymFields ys = true := by
          rcases hbad with h | h
          · rw [hby] at h
            cases h
          · exact h
        obtain ⟨e, he⟩ := ih (fun k x hx => hall k x (List.mem_cons_of_mem _ hx)) hys
        refine ⟨e, ?_⟩
        rw [serializeFields, hrecy, he]
        cases r <;> rfl

theorem NoTaggedList_map_pairs (es : List (JSVal × JSVal)) :
    NoTaggedList (es.map (fun p => JSVal.varr [p.1, p.2])) = NoTaggedPairs es := by
  induction es with
  | nil => rfl
  | cons q qs ih =>
    obtain ⟨a, b⟩ := q
    simp only [List.map_cons, NoTaggedList, NoTagged, NoTaggedPairs, ih,
      Bool.and_true, Bool.and_assoc]

theorem HasBadSymList_map_pairs (es : List (JSVal × JSVal)) :
    HasBadSymList (es.map (fun p => JSVal.varr [p.1, p.2])) = HasBadSymPairs es := by
  induction es with
  | nil => rfl
  | cons q qs ih =>
    obtain ⟨a, b⟩ := q
    simp only [List.map_cons, HasBadSymList, HasBadSym, HasBadSymPairs, ih,
      Bool.or_false, Bool.or_assoc]

theorem NoTaggedList_mem {x : JSVal} {xs : List JSVal}
    (hv : NoTaggedList xs = true) (h : x ∈ xs) : NoTagged x = true := by
  induction xs with
  | nil => cases h
  | cons y ys ih =>
    rw [NoTaggedList, Bool.and_eq_true] at hv
    rcases List.mem_cons.mp h with rfl | h'
    · exact hv.1
    · exact ih hv.2 h'

theorem NoTaggedFields_mem {k : String} {x : JSVal} {fs : List (String × JSVal)}
    (hv : NoTaggedFields fs = true) (h : (k, x) ∈ fs) : NoTagged x = true := by
  induction fs with
  | nil => cases h
  | cons y ys ih =>
    obtain ⟨ky, xy⟩ := y
    rw [NoTaggedFields, Bool.and_eq_true] at hv
    rcases List.mem_cons.mp h with heq | h'
    · cases heq
      exact hv.1
    · exact ih hv.2 h'

/-- Against the built-in registry, a keyless symbol in a marker-free
value makes the stringification fail, given enough budget. -/
theorem stringify_badsym : ∀ (fuel : Nat) (v : JSVal), NoTagged v = true →
    HasBadSym v = true → pickleFuel v ≤ fuel →
    ∃ e, stringifyProp thePicklers fuel v = .error e := by
  intro fuel
  induction fuel with
  | zero =>
    intro v _ _ hfl
    have := pickleFuel_pos v
    omega
  | succ fuel ih =>
    intro v hnt hbad hfl
    match v with
    | .vstr s => simp [HasBadSym] at hbad
    | .vnum n => simp [HasBadSym] at hbad
    | .vbool b => simp [HasBadSym] at hbad
    | .vnull => simp [HasBadSym] at hbad
    | .vundef => simp [HasBadSym] at hbad
    | .vfunc => simp [HasBadSym] at hbad
    | .vbigint n => simp [HasBadSym] at hbad
    | .vdate ts => simp [HasBadSym] at hbad
    | .vregex s f => simp [HasBadSym] at hbad
    | .vsym (.forKey k) => simp [HasBadSym] at hbad
    | .vtagged mk tj b => simp [NoTagged] at hnt
    | .vsym (.unkeyed i) => exact ⟨.noSymbolKey, rfl⟩
    | .varr xs =>
      have hnt' : NoTaggedList xs = true := by simpa [NoTagged] using hnt
      have hbad' : HasBadSymList xs = true := by simpa [HasBadSym] using hbad
      have hall : ∀ x ∈ xs, HasBadSym x = true →
          ∃ e, stringifyProp thePicklers fuel x = .error e := by
        intro x hx hbx
        refine ih x (NoTaggedList_mem hnt' hx) hbx ?_
        have := pickleFuelList_mem hx
        simp only [pickleFuel] at hfl
        omega
      obtain ⟨e, he⟩ := serializeElems_bad _ xs hall hbad'
      refine ⟨e, ?_⟩
      rw [show stringifyProp thePicklers (fuel + 1) (.varr xs)
            = stringifyStep thePicklers (stringifyProp thePicklers fuel) (.varr xs) from rfl]
      rw [stringifyStep_eq, replacer_varr, except_bind_ok]
      show (serializeElems (stringifyProp thePicklers fuel) xs).bind
          (fun l => Except.ok (some (JSTree.arr l))) = Except.error e
      rw [he]
      rfl
    | .vobj fs =>
      have hnt' : NoTaggedFields fs = true := by simpa [NoTagged] using hnt
      have hbad' : HasBadSymFields fs = true := by simpa [HasBadSym] using hbad
      have hall : ∀ k x, (k, x) ∈ fs → HasBadSym x = true →
          ∃ e, stringifyProp thePicklers fuel x = .error e := by
        intro k x hx hbx
        refine ih x (NoTaggedFields_mem hnt' hx) hbx ?_
        have := pickleFuelFields_mem hx
        simp only [pickleFuel] at hfl
        omega
      obtain ⟨e, he⟩ := serializeFields_bad _ fs hall hbad'
      refine ⟨e, ?_⟩
      rw [show stringifyProp thePicklers (fuel + 1) (.vobj fs)
            = stringifyStep thePicklers (stringifyProp thePicklers fuel) (.vobj fs) from rfl]
      rw [stringifyStep_eq, replacer_vobj, except_bind_ok]
      show (serializeFields (stringifyProp thePicklers fuel) fs).bind
          (fun l => Except.ok (some (JSTree.obj l))) = Except.error e
      rw [he]
      rfl
    | .vset xs =>
      have hnt' : NoTaggedList xs = true := by simpa [NoTagged] using hnt
      have hbad' : HasBadSymList xs = true := by simpa [HasBadSym] using hbad
      obtain ⟨f', rfl⟩ : ∃ f', fuel = f' + 1 := by
        refine ⟨fuel - 1, ?_⟩
        simp only [pickleFuel] at hfl
        have := pickleFuel_pos (JSVal.vset xs)
        omega
      have hpay : ∃ e, stringifyProp thePicklers (f' + 1) (.varr xs) = .error e := by
        refine ih (.varr xs) (by simpa [NoTagged] using hnt') (by simpa [HasBadSym] using hbad') ?_
        simp only [pickleFuel] at hfl ⊢
        omega
      obtain ⟨e, he⟩ := hpay
      refine ⟨e, ?_⟩
      rw [show stringifyProp thePicklers (f' + 1 + 1) (.vset xs)
            = stringifyStep thePicklers (stringifyProp thePicklers (f' + 1)) (.vset xs) from rfl]
      rw [stringifyStep_eq, replacer_vset, except_bind_ok]
      show serializeInto (stringifyProp thePicklers (f' + 1)) (MakeFlat "freik.Set" (.varr xs))
        = Except.error e
      rw [MakeFlat, serializeInto, serializeFields,
        show stringifyProp thePicklers (f' + 1) (.vstr "freik.Set")
          = .ok (some (.str "freik.Set")) from rfl,
        serializeFields, he]
      rfl
    | .vmap es =>
      have hnt' : NoTaggedPairs es = true := by simpa [NoTagged] using hnt
      have hbad' : HasBadSymPairs es = true := by simpa [HasBadSym] using hbad
      obtain ⟨f', rfl⟩ : ∃ f', fuel = f' + 1 := by
        refine ⟨fuel - 1, ?_⟩
        simp only [pickleFuel] at hfl
        omega
      have hpay : ∃ e, stringifyProp thePicklers (f' + 1)
          (.varr (es.map (fun p => .varr [p.1, p.2]))) = .error e := by
        refine ih (.varr (es.map (fun p => .varr [p.1, p.2])))
          (by simp only [NoTagged, NoTaggedList_map_pairs]; exact hnt')
          (by simp only [HasBadSym, HasBadSymList_map_pairs]; exact hbad') ?_
        have h1 := pickleFuelList_map_pairs es
        simp only [pickleFuel] at hfl ⊢
        omega
      obtain ⟨e, he⟩ := hpay
      refine ⟨e, ?_⟩
      rw [show stringifyProp thePicklers (f' + 1 + 1) (.vmap es)
            = stringifyStep thePicklers (stringifyProp thePicklers (f' + 1)) (.vmap es) from rfl]
      rw [stringifyStep_eq, replacer_vmap, except_bind_ok]
      show serializeInto (stringifyProp thePicklers (f' + 1))
          (MakeFlat "freik.Map" (.varr (es.map (fun p => .varr [p.1, p.2]))))
        = Except.error e
      rw [MakeFlat, serializeInto, serializeFields,
        show stringifyProp thePicklers (f' + 1) (.vstr "freik.Map")
          = .ok (some (.str "freik.Map")) from rfl,
        serializeFields, he]
      rfl

/-! ## Dispatch order -/

theorem builtinScan_eq (reg : EncReg) (v : JSVal) (h6 : SixPresent reg = true) :
    builtinScan reg v builtInPickleTypes = firstMatchSpec reg v := by
  rw [SixPresent] at h6
  simp only [Bool.and_eq_true] at h6
  obtain ⟨⟨⟨⟨⟨h1, h2⟩, h3⟩, h4⟩, h5⟩, h6'⟩ := h6
  obtain ⟨pm, hpm⟩ := Option.isSome_iff_exists.mp h1
  obtain ⟨ps, hps⟩ := Option.isSome_iff_exists.mp h2
  obtain ⟨py, hpy⟩ := Option.isSome_iff_exists.mp h3
  obtain ⟨pr, hpr⟩ := Option.isSome_iff_exists.mp h4
  obtain ⟨pd, hpd⟩ := Option.isSome_iff_exists.mp h5
  obtain ⟨pb, hpb⟩ := Option.isSome_iff_exists.mp h6'
  simp only [builtInPickleTypes, builtinScan, firstMatchSpec,
    hpm, hps, hpy, hpr, hpd, hpb, Option.map_some']

/-- `getPickler` agrees with the claim-side dispatch description whenever
the six built-in handlers are present. -/
theorem getPickler_eq_dispSpec (reg : EncReg) (v : JSVal)
    (h6 : SixPresent reg = true) : getPickler reg v = dispSpec reg v := by
  rw [getPickler, dispSpec, builtinScan_eq reg v h6]

/-! ## The claims -/

/-- Claim C1 (counterexample): the round-trip law fails as stated.  The
Set `new Set([1n])` is a valid Set value, yet decoding its pickled text
yields the raw envelope record, not a Set: `isFlattened`'s
`isSimpleObject` payload check rejects the revived BigInt element, so
the Set envelope is passed through unchanged. -/
theorem claim_C1_counterexample :
    Pickle (.vset [.vbigint 1]) =
      .ok (some (envT "freik.Set" (.arr [envT "freik.BigInt" (.str "1")])))
    ∧ Unpickle (envT "freik.Set" (.arr [envT "freik.BigInt" (.str "1")])) =
      .ok (.vobj [("@dataType", .vstr "freik.Set"), ("@dataValue", .varr [.vbigint 1])])
    ∧ JSVal.vobj [("@dataType", .vstr "freik.Set"), ("@dataValue", .varr [.vbigint 1])]
      ≠ JSVal.vset [.vbigint 1] :=
  ⟨rfl, rfl, fun h => JSVal.noConfusion h⟩

/-- Claim C1 (amended): for every built-in special type in
{Map, Set, Date, RegExp, BigInt} and every valid value of that type whose
Map/Set members (recursively through plain lists and records) contain no
Symbol and no BigInt, `Unpickle (Pickle v)` is deep-equal to `v` (Dates
by timestamp, BigInts by numeric value). -/
theorem claim_C1_roundtrip (v : JSVal) (_htop : SpecialTop v = true)
    (hv : ValidPickle v = true) :
    ∃ t, Pickle v = .ok (some t) ∧ Unpickle t = .ok v :=
  ⟨encTree v, Pickle_ok v hv, Unpickle_encTree v hv⟩

/-- Claim C1 witness: the round trip at the Set `new Set(['a'])`. -/
theorem claim_C1_roundtrip_witness :
    SpecialTop (.vset [.vstr "a"]) = true ∧ ValidPickle (.vset [.vstr "a"]) = true ∧
    ∃ t, Pickle (.vset [.vstr "a"]) = .ok (some t) ∧
      Unpickle t = .ok (.vset [.vstr "a"]) :=
  ⟨rfl, rfl, claim_C1_roundtrip (.vset [.vstr "a"]) rfl rfl⟩

/-- Claim C2 (counterexample): pickling `new Set(['a','b'])` in a list
produces envelope fields named `@dataType`/`@dataValue`, not the
`typeTag`/`typeValue` the claim states. -/
theorem claim_C2_counterexample :
    PickleText (.varr [.vset [.vstr "a", .vstr "b"]]) =
      .ok (some "[\x7b\"@dataType\":\"freik.Set\",\"@dataValue\":[\"a\",\"b\"]\x7d]")
    ∧ "[\x7b\"@dataType\":\"freik.Set\",\"@dataValue\":[\"a\",\"b\"]\x7d]" ≠
      "[\x7b\"typeTag\":\"freik.Set\",\"typeValue\":[\"a\",\"b\"]\x7d]" :=
  ⟨rfl, by decide⟩

/-- Claim C2 (amended): the flattened envelope of every tagged value is a
two-field record whose field names are exactly `@dataType` (the tag's
string key) and `@dataValue` (the encoded payload); pickling
`new Set(['a','b'])` nested in a list produces text equivalent to
`[{"@dataType":"freik.Set","@dataValue":["a","b"]}]`. -/
theorem claim_C2_envelope (name : String) (data : JSVal) :
    MakeFlat name data = .vobj [("@dataType", .vstr name), ("@dataValue", data)]
    ∧ PickleText (.varr [.vset [.vstr "a", .vstr "b"]]) =
      .ok (some "[\x7b\"@dataType\":\"freik.Set\",\"@dataValue\":[\"a\",\"b\"]\x7d]") :=
  ⟨rfl, rfl⟩

/-- Claim C3 (code bug): decoding well-formed text can throw.  The
envelope `{"@dataType":"freik.RegExp","@dataValue":{"source":"a","flags":"q"}}`
passes the Regex decoder's shape check, and `new RegExp('a','q')` throws
a SyntaxError that `RegexUnpickle` does not catch, contradicting the
never-throws decode contract the other built-in decoders implement with
try/catch. -/
theorem claim_C3_regex_decode_throws :
    Unpickle (.obj [("@dataType", .str "freik.RegExp"),
        ("@dataValue", .obj [("source", .str "a"), ("flags", .str "q")])]) =
      .error .regexFlagsErr := rfl

/-- Claim C4: encoding any marker-free value containing a symbol with no
registrable global key fails with an error — never swallowed, never
producing output — and at a concrete input the error is exactly
`SymbolPickle`'s throw. -/
theorem claim_C4_keyless_symbol_aborts :
    (∀ v, NoTagged v = true → HasBadSym v = true → ∃ e, Pickle v = .error e)
    ∧ Pickle (.vobj [("k", .vsym (.unkeyed 0))]) = .error .noSymbolKey := by
  refine ⟨?_, rfl⟩
  intro v hnt hbad
  exact stringify_badsym (pickleFuel v) v hnt hbad (Nat.le_refl _)

/-- Claim C4 witness: a keyless symbol inside a list aborts the encode. -/
theorem claim_C4_witness :
    NoTagged (.varr [.vsym (.unkeyed 0)]) = true
    ∧ HasBadSym (.varr [.vsym (.unkeyed 0)]) = true
    ∧ ∃ e, Pickle (.varr [.vsym (.unkeyed 0)]) = .error e :=
  ⟨rfl, rfl, claim_C4_keyless_symbol_aborts.1 (.varr [.vsym (.unkeyed 0)]) rfl rfl⟩

/-- Claim C5 (code bug): the built-in Date decoder signals absence for
non-string payloads, but for a string that fails to parse it returns an
Invalid Date (`new Date(s)` never throws, so the decoder's try/catch is
dead) instead of signalling absence. -/
theorem claim_C5_date_decoder_invalid :
    DateUnpickle (.vstr "xyz") = .ok (some (.vdate none))
    ∧ DateUnpickle (.vnum 3) = .ok none
    ∧ (some (JSVal.vdate none) : Option JSVal) ≠ none :=
  ⟨rfl, rfl, fun h => Option.noConfusion h⟩

/-- Claim C6 (counterexample): a Map carrying an unregistered marker and
a `toJSON` method is dispatched to the `toJSON` fallback under the
marker's tag — neither the registered-marker branch nor the built-in
scan — so the claimed two-branch priority (registered marker, else
built-ins in order) does not hold for every value. -/
theorem claim_C6_counterexample :
    (getPickler thePicklers
        (.vtagged (.forKey "pickler.T") (some (.vstr "x")) (.vmap []))).map Prod.fst =
      some (.forKey "pickler.T")
    ∧ isMapV (.vtagged (.forKey "pickler.T") (some (.vstr "x")) (.vmap [])) = true
    ∧ lookupTag thePicklers (.forKey "pickler.T") = (none : Option PEnc)
    ∧ JSym.forKey "pickler.T" ≠ MapTag :=
  ⟨rfl, rfl, rfl, by decide⟩

/-- Claim C6 (amended): for every value the dispatch follows a fixed
priority — a marker whose tag has a registered encoder always wins over
built-in shape matches; otherwise a marker with a `toJSON` method uses
the fallback closure under the marker's tag; otherwise the built-in
predicates are tested in exactly the order Map, Set, Symbol, Regex,
Date, BigInt and the first match decides the encoder and tag — provided
all six built-in handlers are registered (true for every reachable
registry: they are seeded at load and never removed). -/
theorem claim_C6_dispatch (reg : EncReg) (v : JSVal)
    (h6 : SixPresent reg = true) : getPickler reg v = dispSpec reg v :=
  getPickler_eq_dispSpec reg v h6

/-- Claim C6 witness: the dispatch agreement for the built-in registry
at a Set value. -/
theorem claim_C6_dispatch_witness :
    SixPresent thePicklers = true ∧
    getPickler thePicklers (.vset [.vstr "a"]) =
      dispSpec thePicklers (.vset [.vstr "a"]) :=
  ⟨rfl, claim_C6_dispatch thePicklers (.vset [.vstr "a"]) rfl⟩

/-- Claim C7 (counterexample): re-pickling is not stable for all values
on which `Pickle` succeeds.  The plain record
`{'@dataType':'freik.Date','@dataValue':'xyz'}` pickles to text, decodes
to an Invalid Date, and re-pickles to text with payload `null` instead
of `"xyz"`. -/
theorem claim_C7_counterexample :
    PickleText (.vobj [("@dataType", .vstr "freik.Date"), ("@dataValue", .vstr "xyz")]) =
      .ok (some "\x7b\"@dataType\":\"freik.Date\",\"@dataValue\":\"xyz\"\x7d")
    ∧ Unpickle (.obj [("@dataType", .str "freik.Date"), ("@dataValue", .str "xyz")]) =
      .ok (.vdate none)
    ∧ PickleText (.vdate none) =
      .ok (some "\x7b\"@dataType\":\"freik.Date\",\"@dataValue\":null\x7d")
    ∧ "\x7b\"@dataType\":\"freik.Date\",\"@dataValue\":null\x7d" ≠
      "\x7b\"@dataType\":\"freik.Date\",\"@dataValue\":\"xyz\"\x7d" :=
  ⟨rfl, rfl, rfl, by decide⟩

/-- Claim C7 (amended): re-pickling is stable on the valid class (no
envelope-shaped plain records, no Invalid Dates, no keyless symbols, no
marker-carrying values, Map/Set members serializer-visible):
`Pickle (Unpickle (Pickle v))` equals `Pickle v`, as trees and as
text. -/
theorem claim_C7_repickle_stable (v : JSVal) (hv : ValidPickle v = true) :
    ∃ t w, Pickle v = .ok (some t) ∧ Unpickle t = .ok w
      ∧ Pickle w = Pickle v ∧ PickleText w = PickleText v :=
  ⟨encTree v, v, Pickle_ok v hv, Unpickle_encTree v hv, rfl, rfl⟩

/-- Claim C7 witness: stability at the Map `new Map([['a','b']])`. -/
theorem claim_C7_witness :
    ValidPickle (.vmap [(.vstr "a", .vstr "b")]) = true ∧
    ∃ t w, Pickle (.vmap [(.vstr "a", .vstr "b")]) = .ok (some t)
      ∧ Unpickle t = .ok w
      ∧ Pickle w = Pickle (.vmap [(.vstr "a", .vstr "b")])
      ∧ PickleText w = PickleText (.vmap [(.vstr "a", .vstr "b")]) :=
  ⟨rfl, claim_C7_repickle_stable (.vmap [(.vstr "a", .vstr "b")]) rfl⟩

/-- Claim C8: `SafelyUnpickle` runs the ordinary decode and validates the
root with the caller's predicate, returning the decoded value when the
predicate accepts and absence (not an error) when it rejects; in
particular on `Pickle v` for valid `v` it returns a `v`-equivalent value
under `v`'s predicate and absence under a different type's predicate. -/
theorem claim_C8_checked_unpickle :
    (∀ (t : JSTree) (check : JSVal → Bool) (x : JSVal), Unpickle t = .ok x →
      SafelyUnpickle t check = .ok (if check x then some x else none))
    ∧ (∀ (v : JSVal) (check : JSVal → Bool), ValidPickle v = true →
      ∃ t, Pickle v = .ok (some t) ∧
        SafelyUnpickle t check = .ok (if check v then some v else none)) := by
  constructor
  · intro t check x h
    show (Unpickle t).bind
        (fun res => Except.ok (if check res then some res else none)) = _
    rw [h, except_bind_ok]
  · intro v check hv
    refine ⟨encTree v, Pickle_ok v hv, ?_⟩
    show (Unpickle (encTree v)).bind
        (fun res => Except.ok (if check res then some res else none)) = _
    rw [Unpickle_encTree v hv, except_bind_ok]

/-- Claim C8 witness: the checked unpickle of `new Set(['a'])` against
the Set predicate (accepting) and the Map predicate (absent). -/
theorem claim_C8_witness :
    ValidPickle (.vset [.vstr "a"]) = true
    ∧ (∃ t, Pickle (.vset [.vstr "a"]) = .ok (some t) ∧
        SafelyUnpickle t chkIsSet =
          .ok (if chkIsSet (.vset [.vstr "a"]) then some (.vset [.vstr "a"]) else none))
    ∧ (∃ t, Pickle (.vset [.vstr "a"]) = .ok (some t) ∧
        SafelyUnpickle t chkIsMap =
          .ok (if chkIsMap (.vset [.vstr "a"]) then some (.vset [.vstr "a"]) else none)) :=
  ⟨rfl, claim_C8_checked_unpickle.2 (.vset [.vstr "a"]) chkIsSet rfl,
    claim_C8_checked_unpickle.2 (.vset [.vstr "a"]) chkIsMap rfl⟩

/-- Claim C9: although `Pickle` is declared to return a string, for some
roots it yields no string at all: `Pickle(undefined)` and `Pickle` of a
bare unmarked function both make the underlying stringifier return
`undefined`. -/
theorem claim_C9_pickle_no_string :
    PickleText .vundef = .ok none ∧ PickleText .vfunc = .ok none :=
  ⟨rfl, rfl⟩

/-- Claim C10: a value carrying a marker whose symbol has a registered
encoder but no global string key is silently passed through by the
replacer — no envelope, no error — and the full encode then emits the
plain serialization of the value. -/
theorem claim_C10_keyless_marker_passthrough :
    (∀ (reg : EncReg) (i : Nat) (tj : Option JSVal) (base value : JSVal) (f : PEnc),
      lookupTag reg (.unkeyed i) = some f →
      replacerStep reg (.vtagged (.unkeyed i) tj base) value = .ok value)
    ∧ lookupTag extReg0 (.unkeyed 0) = some customPayloadEnc
    ∧ PickleWith extReg0 (.vtagged (.unkeyed 0) none (.vobj [("a", .vstr "b")])) =
      .ok (some (.obj [("a", .str "b")])) := by
  refine ⟨?_, rfl, rfl⟩
  intro reg i tj base value f h
  have h2 : getPickler reg (.vtagged (.unkeyed i) tj base) = some (.unkeyed i, f) := by
    simp [getPickler, markerOf, h]
  simp [replacerStep, h2, JSym.keyFor]

/-- Claim C10 witness: pass-through at the extended registry. -/
theorem claim_C10_witness :
    lookupTag extReg0 (.unkeyed 0) = some customPayloadEnc
    ∧ replacerStep extReg0
        (.vtagged (.unkeyed 0) none (.vobj [("a", .vstr "b")])) (.vstr "z") =
      .ok (.vstr "z") :=
  ⟨rfl, claim_C10_keyless_marker_passthrough.1 extReg0 0 none
    (.vobj [("a", .vstr "b")]) (.vstr "z") customPayloadEnc rfl⟩
